import Mathlib

/-!
Verification of the orientation-data resolution and spherical-statistics engine
of the `cpo_analyzer` crate against its natural-language specification.

The Rust source is shallowly embedded: `f64` values are modelled as exact
rationals (`ℚ`) where only ordered-field operations occur (time resolution,
maximum computations) and as real numbers (`ℝ`) where transcendental
functions occur (Euler-angle conversion, Lambert projection, Gaussian
orientation counts).  File-system state for the shard scan is modelled as a
function from shard index to shard contents.
-/

namespace CpoAnalyzer

/-! ## Time resolver

Embedding of the timestep-resolution code in `process_configuration`
(`src/lib.rs` lines 244-271).  `times` is the decoded `timestep_to_time`
vector; `requested` is `output_time`.  Rust's
`timestep_to_time.iter().position(|x| x > &output_time)` is `findIdx?`.
-/

/-- Index of the first recorded time strictly greater than `requested`,
or the last index when there is none (`after_timestep` in the source). -/
def after_index (times : List ℚ) (requested : ℚ) : ℕ :=
  match times.findIdx? (fun x => decide (requested < x)) with
  | some t => t
  | none => times.length - 1

/-- The `after` index moved one step back, clamped at zero
(`before_timestep` in the source). -/
def before_index (times : List ℚ) (requested : ℚ) : ℕ :=
  if after_index times requested > 0 then after_index times requested - 1
  else after_index times requested

/-- Embedding of the timestep choice in `process_configuration`: compare the
absolute differences at the `before` and `after` indices and keep the closer
one; the source keeps `before` exactly when `before_timestep_diff <
after_timestep_diff` holds strictly. -/
def resolve_timestep (times : List ℚ) (requested : ℚ) : ℕ :=
  let before_timestep_diff := |requested - times.getD (before_index times requested) 0|
  let after_timestep_diff := |requested - times.getD (after_index times requested) 0|
  if before_timestep_diff < after_timestep_diff then before_index times requested
  else after_index times requested

theorem findIdx?_lt_length {α : Type} (p : α → Bool) :
    ∀ (l : List α) (i : ℕ), l.findIdx? p = some i → i < l.length := by
  intro l
  induction l with
  | nil => intro i h; simp [List.findIdx?] at h
  | cons a t ih =>
    intro i h
    rw [List.findIdx?_cons] at h
    by_cases hp : p a
    · simp [hp] at h
      simp [← h]
    · simp [hp] at h
      rcases h with ⟨j, hj, rfl⟩
      have := ih j hj
      simp only [List.length_cons]
      omega

theorem after_index_lt_length (times : List ℚ) (requested : ℚ) (h : times ≠ []) :
    after_index times requested < times.length := by
  have hlen : 0 < times.length := List.length_pos.mpr h
  unfold after_index
  cases hf : times.findIdx? (fun x => decide (requested < x)) with
  | none => simp only []; omega
  | some t => exact findIdx?_lt_length _ times t hf

/-- C4 (counterexample): with `times = [0, 2]` and `requested = 1` the two
absolute differences are exactly equal (both are `1`), the "before" index is
`0`, yet the code returns the "after" index `1`, not the "before" index as
the claim states: ties favor "after", not "before". -/
theorem c4_tie_counterexample :
    |(1 : ℚ) - (0 : ℚ)| = |(1 : ℚ) - (2 : ℚ)| ∧
    before_index [(0 : ℚ), 2] 1 = 0 ∧
    after_index [(0 : ℚ), 2] 1 = 1 ∧
    resolve_timestep [(0 : ℚ), 2] 1 ≠ 0 := by
  have hA : after_index [(0 : ℚ), 2] 1 = 1 := by
    unfold after_index
    simp [List.findIdx?_cons]
    norm_num
  have hB : before_index [(0 : ℚ), 2] 1 = 0 := by
    unfold before_index
    rw [hA]
    norm_num
  refine ⟨by norm_num, hB, hA, ?_⟩
  unfold resolve_timestep
  rw [hA, hB]
  norm_num

/-- C4 (amended): for every non-empty sequence of recorded times and every
requested time, the resolver returns an in-range index that is one of the
"after" index (first recorded time strictly past the request, or the last
index) and the "before" index (its predecessor clamped to 0), whose recorded
time has the smallest absolute difference to the request among those two
candidates; when the two absolute differences are exactly equal the "after"
index is returned. -/
theorem c4_resolve_timestep_nearest (times : List ℚ) (requested : ℚ)
    (h : times ≠ []) :
    resolve_timestep times requested < times.length ∧
    (resolve_timestep times requested = before_index times requested ∨
      resolve_timestep times requested = after_index times requested) ∧
    |times.getD (resolve_timestep times requested) 0 - requested| ≤
      |times.getD (before_index times requested) 0 - requested| ∧
    |times.getD (resolve_timestep times requested) 0 - requested| ≤
      |times.getD (after_index times requested) 0 - requested| ∧
    (|requested - times.getD (before_index times requested) 0| =
        |requested - times.getD (after_index times requested) 0| →
      resolve_timestep times requested = after_index times requested) := by
  have hafter := after_index_lt_length times requested h
  have hbefore : before_index times requested < times.length := by
    unfold before_index
    split <;> omega
  unfold resolve_timestep
  by_cases hlt : |requested - times.getD (before_index times requested) 0| <
      |requested - times.getD (after_index times requested) 0|
  · rw [if_pos hlt]
    refine ⟨hbefore, Or.inl rfl, le_refl _, ?_, ?_⟩
    · rw [abs_sub_comm (times.getD (before_index times requested) 0),
        abs_sub_comm (times.getD (after_index times requested) 0)]
      exact le_of_lt hlt
    · intro heq; rw [heq] at hlt; exact absurd hlt (lt_irrefl _)
  · rw [if_neg hlt]
    push_neg at hlt
    refine ⟨hafter, Or.inr rfl, ?_, le_refl _, fun _ => rfl⟩
    rw [abs_sub_comm (times.getD (after_index times requested) 0),
      abs_sub_comm (times.getD (before_index times requested) 0)]
    exact hlt

/-- Witness for C4's amended theorem at the spec's own example
`times = [0, 1, 2, 5]`, `requested = 1.6`. -/
theorem c4_witness :
    ([(0 : ℚ), 1, 2, 5] ≠ []) ∧
    (resolve_timestep [(0 : ℚ), 1, 2, 5] 1.6 < ([(0 : ℚ), 1, 2, 5]).length ∧
    (resolve_timestep [(0 : ℚ), 1, 2, 5] 1.6 = before_index [(0 : ℚ), 1, 2, 5] 1.6 ∨
      resolve_timestep [(0 : ℚ), 1, 2, 5] 1.6 = after_index [(0 : ℚ), 1, 2, 5] 1.6) ∧
    |([(0 : ℚ), 1, 2, 5]).getD (resolve_timestep [(0 : ℚ), 1, 2, 5] 1.6) 0 - 1.6| ≤
      |([(0 : ℚ), 1, 2, 5]).getD (before_index [(0 : ℚ), 1, 2, 5] 1.6) 0 - 1.6| ∧
    |([(0 : ℚ), 1, 2, 5]).getD (resolve_timestep [(0 : ℚ), 1, 2, 5] 1.6) 0 - 1.6| ≤
      |([(0 : ℚ), 1, 2, 5]).getD (after_index [(0 : ℚ), 1, 2, 5] 1.6) 0 - 1.6| ∧
    (|(1.6 : ℚ) - ([(0 : ℚ), 1, 2, 5]).getD (before_index [(0 : ℚ), 1, 2, 5] 1.6) 0| =
        |(1.6 : ℚ) - ([(0 : ℚ), 1, 2, 5]).getD (after_index [(0 : ℚ), 1, 2, 5] 1.6) 0| →
      resolve_timestep [(0 : ℚ), 1, 2, 5] 1.6 = after_index [(0 : ℚ), 1, 2, 5] 1.6)) :=
  ⟨by simp, c4_resolve_timestep_nearest [(0 : ℚ), 1, 2, 5] 1.6 (by simp)⟩

theorem after_index_example_16 : after_index [(0 : ℚ), 1, 2, 5] 1.6 = 2 := by
  unfold after_index
  simp [List.findIdx?_cons]
  norm_num

theorem after_index_example_14 : after_index [(0 : ℚ), 1, 2, 5] 1.4 = 2 := by
  unfold after_index
  simp [List.findIdx?_cons]
  norm_num

/-- Sanity checks of the resolver on the spec's examples: with
`times = [0, 1, 2, 5]`, a request of `1.6` resolves to index 2 and a request
of `1.4` resolves to index 1. -/
theorem resolve_timestep_spec_examples :
    resolve_timestep [(0 : ℚ), 1, 2, 5] 1.6 = 2 ∧
    resolve_timestep [(0 : ℚ), 1, 2, 5] 1.4 = 1 := by
  constructor
  · have hB : before_index [(0 : ℚ), 1, 2, 5] 1.6 = 1 := by
      unfold before_index
      rw [after_index_example_16]
      norm_num
    unfold resolve_timestep
    rw [after_index_example_16, hB]
    rw [show |(1.6 : ℚ) - [(0 : ℚ), 1, 2, 5].getD 1 0| = 3/5 by norm_num [abs_of_nonneg],
      show |(1.6 : ℚ) - [(0 : ℚ), 1, 2, 5].getD 2 0| = 2/5 by
        rw [show (1.6 : ℚ) - [(0 : ℚ), 1, 2, 5].getD 2 0 = -(2/5) by norm_num]
        rw [abs_neg]
        norm_num [abs_of_nonneg]]
    norm_num
  · have hB : before_index [(0 : ℚ), 1, 2, 5] 1.4 = 1 := by
      unfold before_index
      rw [after_index_example_14]
      norm_num
    unfold resolve_timestep
    rw [after_index_example_14, hB]
    rw [show |(1.4 : ℚ) - [(0 : ℚ), 1, 2, 5].getD 1 0| = 2/5 by norm_num [abs_of_nonneg],
      show |(1.4 : ℚ) - [(0 : ℚ), 1, 2, 5].getD 2 0| = 3/5 by
        rw [show (1.4 : ℚ) - [(0 : ℚ), 1, 2, 5].getD 2 0 = -(3/5) by norm_num]
        rw [abs_neg]
        norm_num [abs_of_nonneg]]
    norm_num

/-! ## Shard locator / record loader

Embedding of the shard-scan loop in `process_configuration`
(`src/lib.rs` lines 285-470).  A grain-orientation shard file for a fixed
timestep is modelled by its decoded contents: `missing` (the `fs::metadata`
probe fails, which terminates the scan with "particle not found"), `empty`
(a zero-length file, skipped), or `data rows` (a decodable file whose data
rows are `rows`; a header-only file is `data []`).  The per-grain payloads
mirror `configuration/record.rs` with Euler angles in degrees as exact
rationals. -/

/-- Mirror of the `Record` struct of `configuration/record.rs` (the six
per-mineral Euler angles; the `Option` wrappers are always `Some` on the
rows the scan consumes, so the fields are plain values here). -/
structure Record where
  id : ℕ
  mineral_0_EA_phi : ℚ
  mineral_0_EA_theta : ℚ
  mineral_0_EA_z : ℚ
  mineral_1_EA_phi : ℚ
  mineral_1_EA_theta : ℚ
  mineral_1_EA_z : ℚ
deriving DecidableEq, Repr

/-- Contents of a grain-orientation shard file at one shard (`rank`) index. -/
inductive ShardFile where
  | missing : ShardFile
  | empty : ShardFile
  | data (rows : List Record) : ShardFile
deriving DecidableEq, Repr

/-- Result of one particle/timestep request. -/
inductive ScanResult where
  | notFound : ScanResult
  | found (rows : List Record) : ScanResult
deriving DecidableEq, Repr

/-- The rows of a shard matching the requested particle id (the
`record.id == *particle_id` filter in the deserialization loop). -/
def matching_rows (rows : List Record) (particle_id : ℕ) : List Record :=
  rows.filter (fun r => decide (r.id = particle_id))

/-- Embedding of the `while !file_found` scan loop: starting at shard index
`rank_id`, a `missing` file stops the scan with `notFound` (the `break`), an
`empty` file advances to the next index (`rank_id + 1; continue`), a decoded
file with no matching row advances likewise, and a decoded file with at
least one matching row stops the scan and yields exactly those rows.  The
second component of the result is the value of `rank_id` when the loop
stops.  `fuel` bounds the number of iterations (the Rust loop is unbounded);
`none` means the fuel ran out. -/
def scan_shards (shards : ℕ → ShardFile) (particle_id : ℕ) :
    ℕ → ℕ → Option (ScanResult × ℕ)
  | 0, _ => none
  | fuel + 1, rank_id =>
    match shards rank_id with
    | ShardFile.missing => some (ScanResult.notFound, rank_id)
    | ShardFile.empty => scan_shards shards particle_id fuel (rank_id + 1)
    | ShardFile.data rows =>
      if matching_rows rows particle_id = [] then
        scan_shards shards particle_id fuel (rank_id + 1)
      else
        some (ScanResult.found (matching_rows rows particle_id), rank_id)

/-- A shard that makes the scan move on to the next index for `particle_id`:
an empty file, or a decodable file with no matching row. -/
def shard_advances (s : ShardFile) (particle_id : ℕ) : Prop :=
  s = ShardFile.empty ∨
    ∃ rows, s = ShardFile.data rows ∧ matching_rows rows particle_id = []

instance (s : ShardFile) (particle_id : ℕ) :
    Decidable (shard_advances s particle_id) := by
  unfold shard_advances
  cases s with
  | missing =>
    exact Decidable.isFalse (by rintro (h | ⟨rows, h, _⟩) <;> exact ShardFile.noConfusion h)
  | empty => exact Decidable.isTrue (Or.inl rfl)
  | data rows =>
    by_cases h : matching_rows rows particle_id = []
    · exact Decidable.isTrue (Or.inr ⟨rows, rfl, h⟩)
    · refine Decidable.isFalse ?_
      rintro (habs | ⟨rows2, heq, hm⟩)
      · exact ShardFile.noConfusion habs
      · cases heq; exact h hm

theorem scan_shards_skip (shards : ℕ → ShardFile) (particle_id : ℕ)
    (fuel rank_id : ℕ) (h : shard_advances (shards rank_id) particle_id) :
    scan_shards shards particle_id (fuel + 1) rank_id =
      scan_shards shards particle_id fuel (rank_id + 1) := by
  rcases h with h | ⟨rows, h, hm⟩
  · simp [scan_shards, h]
  · simp [scan_shards, h, hm]

theorem scan_shards_shift (shards : ℕ → ShardFile) (particle_id : ℕ) :
    ∀ (fuel r k : ℕ), r ≤ k → k - r < fuel →
      (∀ j, r ≤ j → j < k → shard_advances (shards j) particle_id) →
      scan_shards shards particle_id fuel r =
        scan_shards shards particle_id (fuel - (k - r)) k := by
  intro fuel
  induction fuel with
  | zero => intro r k _ hk _; omega
  | succ n ih =>
    intro r k hrk hk hadv
    rcases Nat.eq_or_lt_of_le hrk with rfl | hlt
    · simp
    · have hstep := scan_shards_skip shards particle_id n r
        (hadv r (le_refl r) hlt)
      rw [hstep]
      have h1 : r + 1 ≤ k := hlt
      have h2 : k - (r + 1) < n := by omega
      have h3 : ∀ j, r + 1 ≤ j → j < k → shard_advances (shards j) particle_id :=
        fun j hj hjk => hadv j (by omega) hjk
      rw [ih (r + 1) k h1 h2 h3]
      congr 1
      omega

/-- C2: for a request whose scan starts at shard index 0, if every shard
index below `k` holds an empty file or a decodable file without the
requested particle id, then: when shard `k` decodes to rows containing the
id, the scan stops at `k` and returns exactly the matching rows of that
shard (shards past `k` are arbitrary, so none of them is examined); and when
the file at shard `k` does not exist, the scan stops at `k` reporting the
particle as not found. -/
theorem c2_first_match_scan (shards : ℕ → ShardFile) (particle_id k fuel : ℕ)
    (hpre : ∀ j, j < k → shard_advances (shards j) particle_id)
    (hfuel : k < fuel) :
    (∀ rows, shards k = ShardFile.data rows →
      matching_rows rows particle_id ≠ [] →
      scan_shards shards particle_id fuel 0 =
        some (ScanResult.found (matching_rows rows particle_id), k)) ∧
    (shards k = ShardFile.missing →
      scan_shards shards particle_id fuel 0 =
        some (ScanResult.notFound, k)) := by
  have hshift := scan_shards_shift shards particle_id fuel 0 k (Nat.zero_le k)
    (by omega) (fun j _ hj => hpre j hj)
  obtain ⟨m, hm⟩ : ∃ m, fuel - (k - 0) = m + 1 := ⟨fuel - k - 1, by omega⟩
  constructor
  · intro rows hk hmatch
    rw [hshift, hm]
    simp [scan_shards, hk, hmatch]
  · intro hk
    rw [hshift, hm]
    simp [scan_shards, hk]

/-- Concrete shard sequence for the spec's scanning scenario: shard 0 is an
empty file, shard 1 exists but lacks particle id 5, shard 2 contains id 5,
and all later shards are absent. -/
def c2_example_shards : ℕ → ShardFile := fun n =>
  match n with
  | 0 => ShardFile.empty
  | 1 => ShardFile.data [⟨7, 0, 0, 0, 0, 0, 0⟩]
  | 2 => ShardFile.data [⟨5, 10, 20, 30, 40, 50, 60⟩, ⟨7, 0, 0, 0, 0, 0, 0⟩]
  | _ + 3 => ShardFile.missing

/-- Witness for C2 on the spec's scenario: the scan returns the records of
shard 2 and stops there. -/
theorem c2_witness :
    ((∀ j, j < 2 → shard_advances (c2_example_shards j) 5) ∧ 2 < 3) ∧
    scan_shards c2_example_shards 5 3 0 =
      some (ScanResult.found [⟨5, 10, 20, 30, 40, 50, 60⟩], 2) := by
  refine ⟨⟨?_, by omega⟩, ?_⟩
  · intro j hj
    interval_cases j
    · exact Or.inl rfl
    · exact Or.inr ⟨[⟨7, 0, 0, 0, 0, 0, 0⟩], rfl, by decide⟩
  · have h := (c2_first_match_scan c2_example_shards 5 2 3
      (by
        intro j hj
        interval_cases j
        · exact Or.inl rfl
        · exact Or.inr ⟨[⟨7, 0, 0, 0, 0, 0, 0⟩], rfl, by decide⟩)
      (by omega)).1
      [⟨5, 10, 20, 30, 40, 50, 60⟩, ⟨7, 0, 0, 0, 0, 0, 0⟩] rfl (by decide)
    simpa [matching_rows] using h

/-- Embedding of the `for particle_id in ...` loop of one requested output
time: `rank_id` is initialized once before this loop and mutated by the
scans, so each scan starts at the rank where the previous one stopped.  Each
entry of the result records the particle id, the first shard index probed
for it, and the scan outcome. -/
def process_particle_ids (shards : ℕ → ShardFile) (fuel : ℕ) :
    List ℕ → ℕ → List (ℕ × ℕ × Option (ScanResult × ℕ))
  | [], _ => []
  | particle_id :: rest, rank_id =>
    match scan_shards shards particle_id fuel rank_id with
    | some (res, final_rank) =>
      (particle_id, rank_id, some (res, final_rank)) ::
        process_particle_ids shards fuel rest final_rank
    | none =>
      (particle_id, rank_id, none) :: process_particle_ids shards fuel rest rank_id

/-- The value of `rank_id` after a request: the rank where its scan stopped,
or the starting rank if the scan result is unknown (out of fuel). -/
def next_rank (entry : ℕ × ℕ × Option (ScanResult × ℕ)) : ℕ :=
  match entry.2.2 with
  | some (_, final_rank) => final_rank
  | none => entry.2.1

/-- Grain record with particle id 1 used in the scan-resumption scenario. -/
def record_id1 : Record := ⟨1, 0, 0, 0, 0, 0, 0⟩

/-- Grain record with particle id 2 used in the scan-resumption scenario. -/
def record_id2 : Record := ⟨2, 0, 0, 0, 0, 0, 0⟩

/-- Shard sequence where particle 1 lives in shard 1 and particle 2 in
shard 2 (shard 0 is an empty file). -/
def c3_example_shards : ℕ → ShardFile := fun n =>
  match n with
  | 0 => ShardFile.empty
  | 1 => ShardFile.data [record_id1]
  | 2 => ShardFile.data [record_id2]
  | _ + 3 => ShardFile.missing

/-- C3 (counterexample): processing particle ids `[1, 2]` over
`c3_example_shards`, particle 1 is found in shard 1, and the scan for
particle 2 then starts at shard index 1, not at shard index 0; the first
probed shard indices are `[0, 1]`. -/
theorem c3_rank_not_reset_counterexample :
    (process_particle_ids c3_example_shards 5 [1, 2] 0).map
        (fun entry => entry.2.1) = [0, 1] ∧
    ¬ ∀ entry ∈ process_particle_ids c3_example_shards 5 [1, 2] 0,
        entry.2.1 = 0 := by
  constructor
  · decide
  · intro hall
    have hmem : (2, 1, some (ScanResult.found [record_id2], 2)) ∈
        process_particle_ids c3_example_shards 5 [1, 2] 0 := by decide
    have := hall _ hmem
    simp at this

/-- C3 (amended): within one requested output time, only the first particle
id's scan starts at shard index 0 (the initial `rank_id`); every subsequent
particle id's scan starts at the shard index where the previous scan
stopped, namely the shard of the previous match or the first missing shard
index. -/
theorem c3_scan_resumes (shards : ℕ → ShardFile) (fuel : ℕ) :
    ∀ (particle_ids : List ℕ) (rank0 : ℕ),
      (process_particle_ids shards fuel particle_ids rank0).length =
        particle_ids.length ∧
      (∀ e, (process_particle_ids shards fuel particle_ids rank0).head? = some e →
        e.2.1 = rank0) ∧
      (∀ i e1 e2,
        (process_particle_ids shards fuel particle_ids rank0).get? i = some e1 →
        (process_particle_ids shards fuel particle_ids rank0).get? (i + 1) = some e2 →
        e2.2.1 = next_rank e1) := by
  intro particle_ids
  induction particle_ids with
  | nil =>
    intro rank0
    refine ⟨rfl, ?_, ?_⟩
    · intro e he; simp [process_particle_ids] at he
    · intro i e1 e2 h1 _; simp [process_particle_ids] at h1
  | cons p rest ih =>
    intro rank0
    cases hscan : scan_shards shards p fuel rank0 with
    | some result =>
      obtain ⟨res, final_rank⟩ := result
      have hproc : process_particle_ids shards fuel (p :: rest) rank0 =
          (p, rank0, some (res, final_rank)) ::
            process_particle_ids shards fuel rest final_rank := by
        simp [process_particle_ids, hscan]
      refine ⟨?_, ?_, ?_⟩
      · rw [hproc]; simp [(ih final_rank).1]
      · intro e he; rw [hproc] at he; simp at he; rw [← he]
      · intro i e1 e2 h1 h2
        rw [hproc] at h1 h2
        cases i with
        | zero =>
          simp at h1
          have h2' : (process_particle_ids shards fuel rest final_rank).get? 0 =
              some e2 := by simpa using h2
          have := (ih final_rank).2.1 e2 (by rw [← List.get?_zero]; exact h2')
          rw [this, ← h1]
          simp [next_rank]
        | succ n =>
          have h1' : (process_particle_ids shards fuel rest final_rank).get? n =
              some e1 := by simpa using h1
          have h2' : (process_particle_ids shards fuel rest final_rank).get? (n + 1) =
              some e2 := by simpa using h2
          exact (ih final_rank).2.2 n e1 e2 h1' h2'
    | none =>
      have hproc : process_particle_ids shards fuel (p :: rest) rank0 =
          (p, rank0, none) :: process_particle_ids shards fuel rest rank0 := by
        simp [process_particle_ids, hscan]
      refine ⟨?_, ?_, ?_⟩
      · rw [hproc]; simp [(ih rank0).1]
      · intro e he; rw [hproc] at he; simp at he; rw [← he]
      · intro i e1 e2 h1 h2
        rw [hproc] at h1 h2
        cases i with
        | zero =>
          simp at h1
          have h2' : (process_particle_ids shards fuel rest rank0).get? 0 =
              some e2 := by simpa using h2
          have := (ih rank0).2.1 e2 (by rw [← List.get?_zero]; exact h2')
          rw [this, ← h1]
          simp [next_rank]
        | succ n =>
          have h1' : (process_particle_ids shards fuel rest rank0).get? n =
              some e1 := by simpa using h1
          have h2' : (process_particle_ids shards fuel rest rank0).get? (n + 1) =
              some e2 := by simpa using h2
          exact (ih rank0).2.2 n e1 e2 h1' h2'

/-- Witness for C3's amended theorem on the concrete shard sequence: the
entry after particle 1 starts exactly at the rank where particle 1's scan
stopped (shard 1). -/
theorem c3_witness :
    ((process_particle_ids c3_example_shards 5 [1, 2] 0).get? 0 =
      some (1, 0, some (ScanResult.found [record_id1], 1))) ∧
    ((process_particle_ids c3_example_shards 5 [1, 2] 0).get? 1 =
      some (2, 1, some (ScanResult.found [record_id2], 2))) ∧
    (2, 1, some (ScanResult.found [record_id2], (2 : ℕ))).2.1 =
      next_rank (1, 0, some (ScanResult.found [record_id1], 1)) := by
  refine ⟨by decide, by decide, ?_⟩
  exact (c3_scan_resumes c3_example_shards 5 [1, 2] 0).2.2 0 _ _
    (by decide) (by decide)

/-! ## Pole figures: per-figure maximum and shared color-scale assembly

Embedding of `src/lib.rs` lines 535-639 and of the `PoleFigure` struct of
`pole_figures/pole_figure.rs`.  The `f64` counts are modelled as exact
rationals; a counts matrix is a list of rows (`shape()[0]` is the number of
rows, `shape()[1]` the length of a row). -/

/-- Mirror of the `CrystalAxes` enum of `pole_figures/crystal_axis.rs`. -/
inductive CrystalAxes where
  | AAxis : CrystalAxes
  | BAxis : CrystalAxes
  | CAxis : CrystalAxes
deriving DecidableEq, Repr

/-- Mirror of the `Mineral` enum as used by `lib.rs`. -/
inductive Mineral where
  | Olivine : Mineral
  | Enstatite : Mineral
deriving DecidableEq, Repr

/-- Mirror of the `PoleFigure` struct of `pole_figures/pole_figure.rs`. -/
structure PoleFigure where
  mineral : Mineral
  crystal_axis : CrystalAxes
  counts : List (List ℚ)
  max_count : ℚ
deriving DecidableEq, Repr

/-- One step of the running-maximum updates in `process_configuration`:
`if v > max_count_value { max_count_value = v }`. -/
def rust_max_step (acc v : ℚ) : ℚ := if acc < v then v else acc

/-- Embedding of the per-figure maximum loop (`src/lib.rs` lines 590-598):
`max_count_value` starts at `0.0` and the loops run over
`0..counts.shape()[0] - 1` and `0..counts.shape()[1] - 1`, which are
half-open ranges excluding the last row and the last column. -/
def computed_max_count (counts : List (List ℚ)) : ℚ :=
  (List.range (counts.length - 1)).foldl
    (fun acc i =>
      (List.range ((counts.headD []).length - 1)).foldl
        (fun acc2 j => rust_max_step acc2 ((counts.getD i []).getD j 0)) acc)
    0

theorem fold_rust_max_spec (l : List ℚ) : ∀ a : ℚ,
    a ≤ l.foldl rust_max_step a ∧
    (∀ v ∈ l, v ≤ l.foldl rust_max_step a) ∧
    (l.foldl rust_max_step a = a ∨ l.foldl rust_max_step a ∈ l) := by
  induction l with
  | nil => intro a; exact ⟨le_refl a, by simp, Or.inl rfl⟩
  | cons v t ih =>
    intro a
    have hstep_ge_a : a ≤ rust_max_step a v := by
      unfold rust_max_step; split <;> [exact le_of_lt (by assumption); exact le_refl a]
    have hstep_ge_v : v ≤ rust_max_step a v := by
      unfold rust_max_step; split <;> [exact le_refl v; exact le_of_not_lt (by assumption)]
    have hstep_cases : rust_max_step a v = a ∨ rust_max_step a v = v := by
      unfold rust_max_step; split <;> [exact Or.inr rfl; exact Or.inl rfl]
    obtain ⟨h1, h2, h3⟩ := ih (rust_max_step a v)
    refine ⟨le_trans hstep_ge_a ?_, ?_, ?_⟩
    · simpa [List.foldl_cons] using h1
    · intro w hw
      rcases List.mem_cons.mp hw with rfl | hwt
      · simpa [List.foldl_cons] using le_trans hstep_ge_v h1
      · simpa [List.foldl_cons] using h2 w hwt
    · rw [List.foldl_cons]
      rcases h3 with heq | hmem
      · rw [heq]
        rcases hstep_cases with h | h
        · exact Or.inl h
        · exact Or.inr (by rw [h]; exact List.mem_cons_self v t)
      · exact Or.inr (List.mem_cons_of_mem v hmem)

theorem foldl_rust_max_bind (f : ℕ → List ℚ) : ∀ (rs : List ℕ) (a : ℚ),
    rs.foldl (fun acc i => (f i).foldl rust_max_step acc) a =
      (rs.bind f).foldl rust_max_step a := by
  intro rs
  induction rs with
  | nil => intro a; simp
  | cons i t ih =>
    intro a
    simp only [List.foldl_cons, List.cons_bind, List.foldl_append]
    exact ih ((f i).foldl rust_max_step a)

/-- Entries of the top-left submatrix scanned by the per-figure maximum
loop, in scan order. -/
def scanned_entries (counts : List (List ℚ)) : List ℚ :=
  (List.range (counts.length - 1)).bind
    (fun i => (List.range ((counts.headD []).length - 1)).map
      (fun j => (counts.getD i []).getD j 0))

theorem computed_max_count_eq_fold (counts : List (List ℚ)) :
    computed_max_count counts = (scanned_entries counts).foldl rust_max_step 0 := by
  unfold computed_max_count scanned_entries
  rw [← foldl_rust_max_bind]
  congr 1
  funext acc i
  rw [List.foldl_map]

/-- C8 (counterexample): for the counts matrix `[[0, 0], [0, 5]]`, whose
entries are all non-negative and whose maximal entry is `5` (in the last row
and last column), the per-figure maximum loop computes `0`, not the maximum
`5` over all entries, because the loops exclude the last row and column. -/
theorem c8_last_row_col_counterexample :
    computed_max_count [[(0 : ℚ), 0], [0, 5]] = 0 ∧
    (5 : ℚ) ∈ ([[(0 : ℚ), 0], [0, 5]] : List (List ℚ)).flatten ∧
    (∀ v ∈ ([[(0 : ℚ), 0], [0, 5]] : List (List ℚ)).flatten, 0 ≤ v ∧ v ≤ 5) ∧
    computed_max_count [[(0 : ℚ), 0], [0, 5]] ≠ 5 := by
  refine ⟨?_, by decide, by decide, ?_⟩
  · decide
  · decide

/-- C8 (amended): the `max_count` stored in a pole figure before assembly is
the maximum of the matrix entries whose row index is strictly below
`shape[0] - 1` and whose column index is strictly below `shape[1] - 1`
(the last row and the last column are not scanned), together with the
initial value `0.0`: it bounds every scanned entry from above and is either
`0.0` or one of the scanned entries. -/
theorem c8_computed_max_is_scanned_max (counts : List (List ℚ)) :
    0 ≤ computed_max_count counts ∧
    (∀ i j, i < counts.length - 1 → j < (counts.headD []).length - 1 →
      (counts.getD i []).getD j 0 ≤ computed_max_count counts) ∧
    (computed_max_count counts = 0 ∨
      ∃ i j, i < counts.length - 1 ∧ j < (counts.headD []).length - 1 ∧
        computed_max_count counts = (counts.getD i []).getD j 0) := by
  obtain ⟨h1, h2, h3⟩ := fold_rust_max_spec (scanned_entries counts) 0
  rw [computed_max_count_eq_fold]
  refine ⟨h1, ?_, ?_⟩
  · intro i j hi hj
    apply h2
    unfold scanned_entries
    rw [List.mem_bind]
    exact ⟨i, List.mem_range.mpr hi, List.mem_map.mpr
      ⟨j, List.mem_range.mpr hj, rfl⟩⟩
  · rcases h3 with heq | hmem
    · exact Or.inl heq
    · right
      unfold scanned_entries at hmem
      rw [List.mem_bind] at hmem
      obtain ⟨i, hi, hmap⟩ := hmem
      obtain ⟨j, hj, hval⟩ := List.mem_map.mp hmap
      exact ⟨i, j, List.mem_range.mp hi, List.mem_range.mp hj, hval.symm⟩

/-- Witness instantiating C8's amended theorem at a concrete counts matrix. -/
theorem c8_witness :
    0 ≤ computed_max_count [[(1 : ℚ), 2], [3, 4]] ∧
    (∀ i j, i < ([[(1 : ℚ), 2], [3, 4]] : List (List ℚ)).length - 1 →
      j < (([[(1 : ℚ), 2], [3, 4]] : List (List ℚ)).headD []).length - 1 →
      (([[(1 : ℚ), 2], [3, 4]] : List (List ℚ)).getD i []).getD j 0 ≤
        computed_max_count [[(1 : ℚ), 2], [3, 4]]) ∧
    (computed_max_count [[(1 : ℚ), 2], [3, 4]] = 0 ∨
      ∃ i j, i < ([[(1 : ℚ), 2], [3, 4]] : List (List ℚ)).length - 1 ∧
        j < (([[(1 : ℚ), 2], [3, 4]] : List (List ℚ)).headD []).length - 1 ∧
        computed_max_count [[(1 : ℚ), 2], [3, 4]] =
          (([[(1 : ℚ), 2], [3, 4]] : List (List ℚ)).getD i []).getD j 0) :=
  c8_computed_max_is_scanned_max [[(1 : ℚ), 2], [3, 4]]

/-- The placeholder pole figure used to initialize `pole_figure_grid`
(`src/lib.rs` lines 535-546). -/
def default_pole_figure : PoleFigure :=
  { mineral := Mineral.Olivine
    crystal_axis := CrystalAxes.AAxis
    counts := []
    max_count := 0 }

/-- Embedding of the first assembly loop (`src/lib.rs` lines 612-629): for a
fixed vertical (mineral) index `v`, the running maximum (starting at `0.0`,
strict comparison) of `pole_figure_grid[h][v].max_count` over all horizontal
(axis) indices `h`. -/
def shared_max_count (grid : List (List PoleFigure)) (v : ℕ) : ℚ :=
  grid.foldl
    (fun acc col => rust_max_step acc ((col.getD v default_pole_figure).max_count)) 0

/-- Embedding of the write-back loop (`src/lib.rs` lines 631-638): every
pole figure in vertical (mineral) column `v` receives the shared maximum of
that column; all other fields stay unchanged. -/
def assemble_pole_figure_grid (grid : List (List PoleFigure)) : List (List PoleFigure) :=
  grid.map (fun col =>
    col.mapIdx (fun v pf => { pf with max_count := shared_max_count grid v }))

theorem shared_max_count_eq_fold (grid : List (List PoleFigure)) (v : ℕ) :
    shared_max_count grid v =
      (grid.map (fun col => (col.getD v default_pole_figure).max_count)).foldl
        rust_max_step 0 := by
  unfold shared_max_count
  rw [List.foldl_map]

theorem column_value_nonneg (grid : List (List PoleFigure))
    (hnn : ∀ col ∈ grid, ∀ pf ∈ col, 0 ≤ pf.max_count)
    (col : List PoleFigure) (hcol : col ∈ grid) (v : ℕ) :
    0 ≤ (col.getD v default_pole_figure).max_count := by
  by_cases hv : v < col.length
  · rw [List.getD_eq_getElem col default_pole_figure hv]
    exact hnn col hcol _ (List.getElem_mem hv)
  · rw [List.getD_eq_default col default_pole_figure (le_of_not_lt hv)]
    exact le_refl 0

/-- C7: after the assembly step, for every mineral column `v` of the pole
figure layout, every pole figure in that column carries the same
`max_count`, namely the shared column maximum; that shared value bounds
every per-figure maximum computed before assembly on that column and is
attained by one of them; and the counts matrix, mineral tag and crystal-axis
tag of every pole figure are unchanged (figures of a different mineral
column only ever receive their own column's maximum). -/
theorem c7_assemble_shared_max (grid : List (List PoleFigure))
    (hnn : ∀ col ∈ grid, ∀ pf ∈ col, 0 ≤ pf.max_count)
    (hne : grid ≠ []) :
    ∀ a v, a < grid.length → v < (grid.getD a []).length →
      (((assemble_pole_figure_grid grid).getD a []).getD v default_pole_figure =
        { (grid.getD a []).getD v default_pole_figure with
            max_count := shared_max_count grid v }) ∧
      (∀ a2, a2 < grid.length →
        ((grid.getD a2 []).getD v default_pole_figure).max_count ≤
          shared_max_count grid v) ∧
      (∃ a2, a2 < grid.length ∧
        shared_max_count grid v =
          ((grid.getD a2 []).getD v default_pole_figure).max_count) := by
  intro a v ha hv
  have hlen : (assemble_pole_figure_grid grid).length = grid.length := by
    unfold assemble_pole_figure_grid
    rw [List.length_map]
  obtain ⟨hfold_init, hfold_ge, hfold_mem⟩ :=
    fold_rust_max_spec
      (grid.map (fun col => (col.getD v default_pole_figure).max_count)) 0
  constructor
  · have ha' : a < (assemble_pole_figure_grid grid).length := by rw [hlen]; exact ha
    rw [List.getD_eq_getElem _ [] ha']
    unfold assemble_pole_figure_grid
    rw [List.getElem_map]
    have hv' : v < ((grid[a]).mapIdx
        (fun v pf => { pf with max_count := shared_max_count grid v })).length := by
      rw [List.length_mapIdx]
      rw [List.getD_eq_getElem _ [] ha] at hv
      exact hv
    rw [List.getD_eq_getElem _ default_pole_figure hv']
    have hv2 : v < (grid[a]).length := by
      rw [List.getD_eq_getElem _ [] ha] at hv
      exact hv
    have := List.get_mapIdx (grid[a])
      (fun v pf => { pf with max_count := shared_max_count grid v }) v hv2
    simp only [List.get_eq_getElem] at this
    rw [this]
    rw [List.getD_eq_getElem _ [] ha, List.getD_eq_getElem _ default_pole_figure hv2]
  constructor
  · intro a2 ha2
    rw [shared_max_count_eq_fold]
    apply hfold_ge
    rw [List.mem_map]
    refine ⟨grid.getD a2 [], ?_, rfl⟩
    rw [List.getD_eq_getElem _ [] ha2]
    exact List.getElem_mem ha2
  · rw [shared_max_count_eq_fold]
    rcases hfold_mem with heq | hmem
    · refine ⟨0, List.length_pos.mpr hne, ?_⟩
      rw [heq]
      have h0 : (0 : ℕ) < grid.length := List.length_pos.mpr hne
      have hmem0 : grid.getD 0 [] ∈ grid := by
        rw [List.getD_eq_getElem _ [] h0]
        exact List.getElem_mem h0
      have hub := hfold_ge ((grid.getD 0 []).getD v default_pole_figure).max_count
        (List.mem_map.mpr ⟨grid.getD 0 [], hmem0, rfl⟩)
      rw [heq] at hub
      have hlb := column_value_nonneg grid hnn (grid.getD 0 []) hmem0 v
      exact le_antisymm hlb hub
    · rw [List.mem_map] at hmem
      obtain ⟨col, hcol, hval⟩ := hmem
      obtain ⟨a2, ha2, hget⟩ := List.mem_iff_getElem.mp hcol
      refine ⟨a2, ha2, ?_⟩
      rw [← hval, List.getD_eq_getElem _ [] ha2, hget]

/-- Pole-figure grid from the spec's shared-scale example: two crystal axes
(horizontal index) for one mineral, with per-axis maxima `3.0` and `7.0`. -/
def c7_example_grid : List (List PoleFigure) :=
  [[{ mineral := Mineral.Olivine, crystal_axis := CrystalAxes.AAxis,
      counts := [], max_count := 3 }],
   [{ mineral := Mineral.Olivine, crystal_axis := CrystalAxes.BAxis,
      counts := [], max_count := 7 }]]

/-- Witness for C7 on the spec's example: after assembly both pole figures of
the mineral column report `max_count = 7`. -/
theorem c7_witness :
    (shared_max_count c7_example_grid 0 = 7 ∧
    (((assemble_pole_figure_grid c7_example_grid).getD 0 []).getD 0
        default_pole_figure).max_count = 7 ∧
    (((assemble_pole_figure_grid c7_example_grid).getD 1 []).getD 0
        default_pole_figure).max_count = 7) ∧
    ((((assemble_pole_figure_grid c7_example_grid).getD 0 []).getD 0
        default_pole_figure =
      { (c7_example_grid.getD 0 []).getD 0 default_pole_figure with
          max_count := shared_max_count c7_example_grid 0 }) ∧
    (∀ a2, a2 < c7_example_grid.length →
      ((c7_example_grid.getD a2 []).getD 0 default_pole_figure).max_count ≤
        shared_max_count c7_example_grid 0) ∧
    (∃ a2, a2 < c7_example_grid.length ∧
      shared_max_count c7_example_grid 0 =
        ((c7_example_grid.getD a2 []).getD 0 default_pole_figure).max_count)) :=
  ⟨⟨by decide, by decide, by decide⟩,
    c7_assemble_shared_max c7_example_grid (by decide) (by decide) 0 0
      (by decide) (by decide)⟩

/-! ## Orientation density estimator

Embedding of `gaussian_orientation_counts` (`src/lib.rs` lines 702-734) over
the reals.  `particles` is the n-by-3 array of unit vectors as a list of
rows; `sphere_point_grid` is the 3-by-(sphere_points squared) array as a
function of the coordinate index and the flat grid-point index.  The
ndarray reshape to `(sphere_points, sphere_points)` is row-major, so cell
`(i, j)` reads flat index `i * sphere_points + j`. -/

/-- Kernel concentration parameter `k` (`src/lib.rs` line 710):
`(2. * (1. + npts as f64 / 9.)).min(100.)`. -/
noncomputable def k_value (npts : ℕ) : ℝ :=
  min (2 * (1 + (npts : ℝ) / 9)) 100

/-- Standard deviation (`src/lib.rs` line 713):
`((npts * (k / 2. - 1.) / (k * k)) as f64).sqrt()`. -/
noncomputable def std_dev (npts : ℕ) : ℝ :=
  Real.sqrt ((npts : ℝ) * (k_value npts / 2 - 1) / (k_value npts * k_value npts))

/-- Dot-product matrix `cosalpha = particles.dot(sphere_point_grid)`
(`src/lib.rs` line 716). -/
noncomputable def cosalpha (particles : List (Fin 3 → ℝ)) (grid : Fin 3 → ℕ → ℝ)
    (p g : ℕ) : ℝ :=
  ∑ c : Fin 3, (particles.getD p (fun _ => 0)) c * grid c g

/-- The per-grid-point sum over particles of the spherical Gaussian weights:
`cosalpha.par_mapv_inplace(f64::abs)`, then `k * (cosalpha - 1.)`, then
`par_mapv_inplace(f64::exp)`, then `sum_axis(Axis(0))`
(`src/lib.rs` lines 720-726). -/
noncomputable def weighted_counts (particles : List (Fin 3 → ℝ))
    (grid : Fin 3 → ℕ → ℝ) (g : ℕ) : ℝ :=
  ∑ p ∈ Finset.range particles.length,
    Real.exp (k_value particles.length * (|cosalpha particles grid p g| - 1))

/-- Embedding of `gaussian_orientation_counts`: the summed weights reshaped
to the square grid and divided by `3. * std_dev` (`src/lib.rs` lines
727-733). -/
noncomputable def gaussian_orientation_counts (particles : List (Fin 3 → ℝ))
    (grid : Fin 3 → ℕ → ℝ) (sphere_points i j : ℕ) : ℝ :=
  weighted_counts particles grid (i * sphere_points + j) /
    (3 * std_dev particles.length)

theorem k_value_gt_two (npts : ℕ) (h : 1 ≤ npts) : 2 < k_value npts := by
  unfold k_value
  have hn : (1 : ℝ) ≤ (npts : ℝ) := by exact_mod_cast h
  apply lt_min
  · nlinarith
  · norm_num

theorem std_dev_pos (npts : ℕ) (h : 1 ≤ npts) : 0 < std_dev npts := by
  unfold std_dev
  apply Real.sqrt_pos.mpr
  have hk := k_value_gt_two npts h
  have hn : (1 : ℝ) ≤ (npts : ℝ) := by exact_mod_cast h
  have hknz : 0 < k_value npts * k_value npts := by nlinarith
  apply div_pos
  · nlinarith
  · exact hknz

/-- C6: with at least one input vector, the kernel parameter `k` is strictly
greater than 2, hence `std_dev` is strictly positive and the final
normalization `counts / (3. * std_dev)` never divides by zero. -/
theorem c6_no_division_by_zero (npts : ℕ) (h : 1 ≤ npts) :
    2 < k_value npts ∧ 0 < std_dev npts ∧ 3 * std_dev npts ≠ 0 :=
  ⟨k_value_gt_two npts h, std_dev_pos npts h,
    ne_of_gt (by have := std_dev_pos npts h; linarith)⟩

/-- Witness for C6 at `npts = 1`. -/
theorem c6_witness :
    1 ≤ 1 ∧ (2 < k_value 1 ∧ 0 < std_dev 1 ∧ 3 * std_dev 1 ≠ 0) :=
  ⟨le_refl 1, c6_no_division_by_zero 1 (le_refl 1)⟩

theorem map_sum_eq_range_sum {α : Type} (f : α → ℝ) (d : α) :
    ∀ l : List α, (l.map f).sum = ∑ p ∈ Finset.range l.length, f (l.getD p d) := by
  intro l
  induction l with
  | nil => simp
  | cons a t ih =>
    rw [List.map_cons, List.sum_cons, ih, List.length_cons, Finset.sum_range_succ']
    simp [List.getD]
    ring

/-- C5: for a non-empty list of input vectors, every entry of the density
matrix equals `(1 / (3 * std_dev))` times the sum over input vectors `v` of
`exp (k * (|dot v g| - 1))` at that cell's grid point, where
`k = min 100 (2 * (1 + n / 9))` and
`std_dev = sqrt (n * (k / 2 - 1) / k ^ 2)`; consequently every entry is
non-negative. -/
theorem c5_density_formula (particles : List (Fin 3 → ℝ))
    (grid : Fin 3 → ℕ → ℝ) (sphere_points i j : ℕ) (h : particles ≠ []) :
    gaussian_orientation_counts particles grid sphere_points i j =
      (1 / (3 * std_dev particles.length)) *
        (particles.map (fun v => Real.exp (k_value particles.length *
          (|∑ c : Fin 3, v c * grid c (i * sphere_points + j)| - 1)))).sum ∧
    k_value particles.length = min 100 (2 * (1 + (particles.length : ℝ) / 9)) ∧
    std_dev particles.length = Real.sqrt ((particles.length : ℝ) *
      (k_value particles.length / 2 - 1) / (k_value particles.length ^ 2)) ∧
    0 ≤ gaussian_orientation_counts particles grid sphere_points i j := by
  have hlen : 1 ≤ particles.length := List.length_pos.mpr h
  have hsum : (particles.map (fun v => Real.exp (k_value particles.length *
      (|∑ c : Fin 3, v c * grid c (i * sphere_points + j)| - 1)))).sum =
      weighted_counts particles grid (i * sphere_points + j) := by
    unfold weighted_counts cosalpha
    rw [map_sum_eq_range_sum _ (fun _ => (0 : ℝ))]
  refine ⟨?_, min_comm _ _, by rw [std_dev, sq], ?_⟩
  · rw [hsum]
    unfold gaussian_orientation_counts
    rw [div_eq_mul_inv, one_div, mul_comm]
  · unfold gaussian_orientation_counts
    apply div_nonneg
    · unfold weighted_counts
      exact Finset.sum_nonneg (fun p _ => (Real.exp_pos _).le)
    · have := std_dev_pos particles.length hlen
      linarith

/-- Witness for C5 at a single input vector and the zero grid function. -/
theorem c5_witness :
    ([fun _ => (1 : ℝ)] : List (Fin 3 → ℝ)) ≠ [] ∧
    (gaussian_orientation_counts [fun _ => (1 : ℝ)] (fun _ _ => 0) 1 0 0 =
      (1 / (3 * std_dev ([fun _ => (1 : ℝ)] : List (Fin 3 → ℝ)).length)) *
        (([fun _ => (1 : ℝ)] : List (Fin 3 → ℝ)).map
          (fun v => Real.exp (k_value ([fun _ => (1 : ℝ)] : List (Fin 3 → ℝ)).length *
            (|∑ c : Fin 3, v c * (fun (_ : Fin 3) (_ : ℕ) => (0 : ℝ)) c (0 * 1 + 0)| -
              1)))).sum ∧
    k_value ([fun _ => (1 : ℝ)] : List (Fin 3 → ℝ)).length =
      min 100 (2 * (1 + (([fun _ => (1 : ℝ)] : List (Fin 3 → ℝ)).length : ℝ) / 9)) ∧
    std_dev ([fun _ => (1 : ℝ)] : List (Fin 3 → ℝ)).length =
      Real.sqrt ((([fun _ => (1 : ℝ)] : List (Fin 3 → ℝ)).length : ℝ) *
        (k_value ([fun _ => (1 : ℝ)] : List (Fin 3 → ℝ)).length / 2 - 1) /
        (k_value ([fun _ => (1 : ℝ)] : List (Fin 3 → ℝ)).length ^ 2)) ∧
    0 ≤ gaussian_orientation_counts [fun _ => (1 : ℝ)] (fun _ _ => 0) 1 0 0) :=
  ⟨by simp, c5_density_formula [fun _ => (1 : ℝ)] (fun _ _ => 0) 1 0 0 (by simp)⟩

/-! ## Lambert equal-area grid builder

Embedding of `create_lambert_equal_area_gridpoint` and `create_meshgrid`
(`src/pole_figures/lambert.rs`).  `Array::linspace(-r, r, n)` is the
evenly-spaced sequence; after `create_meshgrid` and
`z_plane.invert_axis(Axis(0))` the planar coordinates of cell `(i, j)` are
`x_plane[i][j] = linspace[j]` and `z_plane[i][j] = linspace[n - 1 - i]`. -/

/-- The planar half-extent `sqrt 2` (`r_plane` in the source). -/
noncomputable def r_plane : ℝ := Real.sqrt 2

/-- `Array::linspace(a, b, n)` at index `i`. -/
noncomputable def linspace (a b : ℝ) (n i : ℕ) : ℝ :=
  a + (b - a) * (i : ℝ) / ((n : ℝ) - 1)

/-- Planar x-coordinate of grid cell `(i, j)` after `create_meshgrid`. -/
noncomputable def x_plane_grid (n i j : ℕ) : ℝ :=
  linspace (-r_plane) r_plane n j

/-- Planar z-coordinate of grid cell `(i, j)` after `create_meshgrid` and
`invert_axis(Axis(0))`. -/
noncomputable def z_plane_grid (n i j : ℕ) : ℝ :=
  linspace (-r_plane) r_plane n (n - 1 - i)

/-- `std::f64::EPSILON`, the machine epsilon `2 ^ (-52)`. -/
noncomputable def f64_epsilon : ℝ := 1 / 2 ^ 52

open Classical in
/-- Pre-normalization x-coordinate (`src/pole_figures/lambert.rs` lines
65-74): guarded by `1 - (X^2 + Z^2)/4 > EPSILON`, otherwise `0`. -/
noncomputable def lambert_x_pre (xp zp : ℝ) : ℝ :=
  if 1 - (xp * xp + zp * zp) / 4 > f64_epsilon then
    Real.sqrt |1 - (xp * xp + zp * zp) / 4| * xp
  else 0

open Classical in
/-- Pre-normalization y-coordinate (lines 76-103): written only by the
`"lower"` and `"upper"` branches, otherwise left at its zero
initialization. -/
noncomputable def lambert_y_pre (hemisphere : String) (xp zp : ℝ) : ℝ :=
  if hemisphere = "lower" then -(1 - (xp * xp + zp * zp) / 2)
  else if hemisphere = "upper" then 1 - (xp * xp + zp * zp) / 2
  else 0

open Classical in
/-- Pre-normalization z-coordinate (lines 76-103): written only by the
`"lower"` and `"upper"` branches, otherwise left at its zero
initialization. -/
noncomputable def lambert_z_pre (hemisphere : String) (xp zp : ℝ) : ℝ :=
  if hemisphere = "lower" then Real.sqrt |1 - (xp * xp + zp * zp) / 4| * (-zp)
  else if hemisphere = "upper" then Real.sqrt |1 - (xp * xp + zp * zp) / 4| * zp
  else 0

/-- Magnitude of the pre-normalization vector (lines 105-114). -/
noncomputable def lambert_mag (hemisphere : String) (xp zp : ℝ) : ℝ :=
  Real.sqrt (lambert_x_pre xp zp * lambert_x_pre xp zp +
    lambert_y_pre hemisphere xp zp * lambert_y_pre hemisphere xp zp +
    lambert_z_pre hemisphere xp zp * lambert_z_pre hemisphere xp zp)

/-- Mirror of the `Lambert` struct of `src/pole_figures/lambert.rs`. -/
structure Lambert where
  x_plane : ℕ → ℕ → ℝ
  z_plane : ℕ → ℕ → ℝ
  r_plane : ℝ
  x : ℕ → ℕ → ℝ
  y : ℕ → ℕ → ℝ
  z : ℕ → ℕ → ℝ

/-- Embedding of `create_lambert_equal_area_gridpoint`: planar meshgrid,
hemisphere-dependent projection, and division of every coordinate by the
magnitude (`x = x / &mag` etc.). -/
noncomputable def create_lambert_equal_area_gridpoint
    (sphere_points : ℕ) (hemisphere : String) : Lambert :=
  { x_plane := fun i j => x_plane_grid sphere_points i j
    z_plane := fun i j => z_plane_grid sphere_points i j
    r_plane := CpoAnalyzer.r_plane
    x := fun i j =>
      lambert_x_pre (x_plane_grid sphere_points i j) (z_plane_grid sphere_points i j) /
        lambert_mag hemisphere (x_plane_grid sphere_points i j)
          (z_plane_grid sphere_points i j)
    y := fun i j =>
      lambert_y_pre hemisphere (x_plane_grid sphere_points i j)
          (z_plane_grid sphere_points i j) /
        lambert_mag hemisphere (x_plane_grid sphere_points i j)
          (z_plane_grid sphere_points i j)
    z := fun i j =>
      lambert_z_pre hemisphere (x_plane_grid sphere_points i j)
          (z_plane_grid sphere_points i j) /
        lambert_mag hemisphere (x_plane_grid sphere_points i j)
          (z_plane_grid sphere_points i j) }

theorem lambert_prenorm_sq_pos (hemisphere : String)
    (hhem : hemisphere = "upper" ∨ hemisphere = "lower") (xp zp : ℝ) :
    0 < lambert_x_pre xp zp * lambert_x_pre xp zp +
      lambert_y_pre hemisphere xp zp * lambert_y_pre hemisphere xp zp +
      lambert_z_pre hemisphere xp zp * lambert_z_pre hemisphere xp zp := by
  have hx2 : 0 ≤ lambert_x_pre xp zp * lambert_x_pre xp zp := mul_self_nonneg _
  have hz2 : 0 ≤ lambert_z_pre hemisphere xp zp * lambert_z_pre hemisphere xp zp :=
    mul_self_nonneg _
  have hy2 : 0 ≤ lambert_y_pre hemisphere xp zp * lambert_y_pre hemisphere xp zp :=
    mul_self_nonneg _
  by_cases hy : 1 - (xp * xp + zp * zp) / 2 = 0
  · have hsum : xp * xp + zp * zp = 2 := by linarith
    have hq : 1 - (xp * xp + zp * zp) / 4 = 1 / 2 := by rw [hsum]; norm_num
    have hguard : 1 - (xp * xp + zp * zp) / 4 > f64_epsilon := by
      rw [hq]; unfold f64_epsilon; norm_num
    have hxval : lambert_x_pre xp zp = Real.sqrt |1 - (xp * xp + zp * zp) / 4| * xp := by
      unfold lambert_x_pre; rw [if_pos hguard]
    have hs : Real.sqrt |1 - (xp * xp + zp * zp) / 4| *
        Real.sqrt |1 - (xp * xp + zp * zp) / 4| = 1 / 2 := by
      rw [← Real.sqrt_mul_self (abs_nonneg _)] at *
      rw [Real.sqrt_mul_self (abs_nonneg _), hq]
      norm_num
    have hzval : lambert_z_pre hemisphere xp zp *
        lambert_z_pre hemisphere xp zp = (1 / 2) * (zp * zp) := by
      unfold lambert_z_pre
      rcases hhem with h | h <;> rw [h]
      · rw [if_neg (by decide), if_pos rfl]
        nlinarith [hs]
      · rw [if_pos rfl]
        nlinarith [hs]
    have hxval2 : lambert_x_pre xp zp * lambert_x_pre xp zp = (1 / 2) * (xp * xp) := by
      rw [hxval]; nlinarith [hs]
    have : lambert_x_pre xp zp * lambert_x_pre xp zp +
        lambert_z_pre hemisphere xp zp * lambert_z_pre hemisphere xp zp = 1 := by
      rw [hxval2, hzval]; nlinarith [hsum]
    nlinarith
  · have hyval : lambert_y_pre hemisphere xp zp = 1 - (xp * xp + zp * zp) / 2 ∨
        lambert_y_pre hemisphere xp zp = -(1 - (xp * xp + zp * zp) / 2) := by
      unfold lambert_y_pre
      rcases hhem with h | h <;> rw [h]
      · rw [if_neg (by decide), if_pos rfl]; exact Or.inl rfl
      · rw [if_pos rfl]; exact Or.inr rfl
    have hy2pos : 0 < lambert_y_pre hemisphere xp zp * lambert_y_pre hemisphere xp zp := by
      rcases hyval with h | h <;> rw [h]
      · exact mul_self_pos.mpr hy
      · exact mul_self_pos.mpr (neg_ne_zero.mpr hy)
    nlinarith

/-- C9: for every grid size `n >= 2` and both hemisphere strings, at every
grid cell the pre-normalization vector is nonzero (its magnitude is strictly
positive), and the renormalized `(x, y, z)` has Euclidean norm exactly 1. -/
theorem c9_grid_unit_norm (n : ℕ) (hemisphere : String) (hn : 2 ≤ n)
    (hhem : hemisphere = "upper" ∨ hemisphere = "lower")
    (i j : ℕ) (hi : i < n) (hj : j < n) :
    0 < lambert_mag hemisphere (x_plane_grid n i j) (z_plane_grid n i j) ∧
    Real.sqrt ((create_lambert_equal_area_gridpoint n hemisphere).x i j ^ 2 +
      (create_lambert_equal_area_gridpoint n hemisphere).y i j ^ 2 +
      (create_lambert_equal_area_gridpoint n hemisphere).z i j ^ 2) = 1 := by
  set xp := x_plane_grid n i j
  set zp := z_plane_grid n i j
  have hpos := lambert_prenorm_sq_pos hemisphere hhem xp zp
  have hmag : 0 < lambert_mag hemisphere xp zp := by
    unfold lambert_mag
    exact Real.sqrt_pos.mpr hpos
  refine ⟨hmag, ?_⟩
  have hmagsq : lambert_mag hemisphere xp zp ^ 2 =
      lambert_x_pre xp zp * lambert_x_pre xp zp +
      lambert_y_pre hemisphere xp zp * lambert_y_pre hemisphere xp zp +
      lambert_z_pre hemisphere xp zp * lambert_z_pre hemisphere xp zp := by
    unfold lambert_mag
    exact Real.sq_sqrt (le_of_lt hpos)
  have hentry :
      (create_lambert_equal_area_gridpoint n hemisphere).x i j ^ 2 +
      (create_lambert_equal_area_gridpoint n hemisphere).y i j ^ 2 +
      (create_lambert_equal_area_gridpoint n hemisphere).z i j ^ 2 = 1 := by
    show (lambert_x_pre xp zp / lambert_mag hemisphere xp zp) ^ 2 +
      (lambert_y_pre hemisphere xp zp / lambert_mag hemisphere xp zp) ^ 2 +
      (lambert_z_pre hemisphere xp zp / lambert_mag hemisphere xp zp) ^ 2 = 1
    rw [div_pow, div_pow, div_pow, div_add_div_same, div_add_div_same]
    rw [hmagsq]
    have : lambert_x_pre xp zp ^ 2 + lambert_y_pre hemisphere xp zp ^ 2 +
        lambert_z_pre hemisphere xp zp ^ 2 =
        lambert_x_pre xp zp * lambert_x_pre xp zp +
        lambert_y_pre hemisphere xp zp * lambert_y_pre hemisphere xp zp +
        lambert_z_pre hemisphere xp zp * lambert_z_pre hemisphere xp zp := by ring
    rw [this]
    exact div_self (ne_of_gt hpos)
  rw [hentry]
  exact Real.sqrt_one

/-- Witness for C9 at `n = 2`, upper hemisphere, cell `(0, 0)`. -/
theorem c9_witness :
    (2 ≤ 2 ∧ (("upper" : String) = "upper" ∨ ("upper" : String) = "lower") ∧
      0 < 2 ∧ 0 < 2) ∧
    (0 < lambert_mag "upper" (x_plane_grid 2 0 0) (z_plane_grid 2 0 0) ∧
    Real.sqrt ((create_lambert_equal_area_gridpoint 2 "upper").x 0 0 ^ 2 +
      (create_lambert_equal_area_gridpoint 2 "upper").y 0 0 ^ 2 +
      (create_lambert_equal_area_gridpoint 2 "upper").z 0 0 ^ 2) = 1) :=
  ⟨⟨le_refl 2, Or.inl rfl, by norm_num, by norm_num⟩,
    c9_grid_unit_norm 2 "upper" (le_refl 2) (Or.inl rfl) 0 0
      (by norm_num) (by norm_num)⟩

/-- C10 (amended): an invalid hemisphere string is silently accepted (the
function is total and returns a grid); the pre-normalization y and z arrays
stay at their zero initialization, so the normalized y and z coordinates are
zero everywhere; a cell whose guarded pre-normalization x value is nonzero
normalizes to `(1, 0, 0)` or `(-1, 0, 0)`; and a cell whose guarded
pre-normalization x value is zero (planar X zero, or planar radius at the
guard boundary as at the grid corners) has magnitude zero, so all three of
its coordinates are `0 / 0` (`NaN` in IEEE arithmetic). -/
theorem c10_invalid_hemisphere (hemisphere : String)
    (h1 : hemisphere ≠ "upper") (h2 : hemisphere ≠ "lower") (n i j : ℕ) :
    lambert_y_pre hemisphere (x_plane_grid n i j) (z_plane_grid n i j) = 0 ∧
    lambert_z_pre hemisphere (x_plane_grid n i j) (z_plane_grid n i j) = 0 ∧
    (create_lambert_equal_area_gridpoint n hemisphere).y i j = 0 ∧
    (create_lambert_equal_area_gridpoint n hemisphere).z i j = 0 ∧
    (lambert_x_pre (x_plane_grid n i j) (z_plane_grid n i j) ≠ 0 →
      ((create_lambert_equal_area_gridpoint n hemisphere).x i j = 1 ∨
        (create_lambert_equal_area_gridpoint n hemisphere).x i j = -1)) ∧
    (lambert_x_pre (x_plane_grid n i j) (z_plane_grid n i j) = 0 →
      lambert_mag hemisphere (x_plane_grid n i j) (z_plane_grid n i j) = 0) := by
  set xp := x_plane_grid n i j
  set zp := z_plane_grid n i j
  have hy0 : lambert_y_pre hemisphere xp zp = 0 := by
    unfold lambert_y_pre
    rw [if_neg h2, if_neg h1]
  have hz0 : lambert_z_pre hemisphere xp zp = 0 := by
    unfold lambert_z_pre
    rw [if_neg h2, if_neg h1]
  have hmag : lambert_mag hemisphere xp zp =
      Real.sqrt (lambert_x_pre xp zp * lambert_x_pre xp zp) := by
    unfold lambert_mag
    rw [hy0, hz0]
    norm_num
  refine ⟨hy0, hz0, ?_, ?_, ?_, ?_⟩
  · show lambert_y_pre hemisphere xp zp / lambert_mag hemisphere xp zp = 0
    rw [hy0, zero_div]
  · show lambert_z_pre hemisphere xp zp / lambert_mag hemisphere xp zp = 0
    rw [hz0, zero_div]
  · intro hx
    have habs : lambert_mag hemisphere xp zp = |lambert_x_pre xp zp| := by
      rw [hmag, Real.sqrt_mul_self_eq_abs]
    show lambert_x_pre xp zp / lambert_mag hemisphere xp zp = 1 ∨
      lambert_x_pre xp zp / lambert_mag hemisphere xp zp = -1
    rw [habs]
    rcases lt_or_gt_of_ne hx with hneg | hpos
    · right
      rw [abs_of_neg hneg, div_neg, div_self hx]
    · left
      rw [abs_of_pos hpos, div_self hx]
  · intro hx
    rw [hmag, hx]
    simp [Real.sqrt_zero]

/-- C10 (counterexample): at the corner cell `(0, 1)` of a 2-by-2 grid the
planar X coordinate is `sqrt 2`, which is nonzero, yet the guarded
pre-normalization x value is `0` (the guard `1 - (X^2 + Z^2)/4 > EPSILON`
fails at planar radius 2), the magnitude is `0`, and the normalized x
coordinate is `0 / 0` — `NaN` in IEEE arithmetic, and in particular neither
`1` nor `-1` as the claim states for every cell with nonzero planar X. -/
theorem c10_nan_corner_counterexample :
    x_plane_grid 2 0 1 ≠ 0 ∧
    lambert_x_pre (x_plane_grid 2 0 1) (z_plane_grid 2 0 1) = 0 ∧
    lambert_mag "sideways" (x_plane_grid 2 0 1) (z_plane_grid 2 0 1) = 0 ∧
    (create_lambert_equal_area_gridpoint 2 "sideways").x 0 1 ≠ 1 ∧
    (create_lambert_equal_area_gridpoint 2 "sideways").x 0 1 ≠ -1 := by
  have hs2 : Real.sqrt 2 * Real.sqrt 2 = 2 := Real.mul_self_sqrt (by norm_num)
  have hs2pos : 0 < Real.sqrt 2 := Real.sqrt_pos.mpr (by norm_num)
  have hx : x_plane_grid 2 0 1 = Real.sqrt 2 := by
    unfold x_plane_grid linspace r_plane
    push_cast
    ring
  have hz : z_plane_grid 2 0 1 = Real.sqrt 2 := by
    unfold z_plane_grid linspace r_plane
    norm_num
  have hxpre : lambert_x_pre (x_plane_grid 2 0 1) (z_plane_grid 2 0 1) = 0 := by
    unfold lambert_x_pre
    rw [hx, hz, hs2]
    rw [if_neg]
    unfold f64_epsilon
    norm_num
  have hmag : lambert_mag "sideways" (x_plane_grid 2 0 1) (z_plane_grid 2 0 1) = 0 := by
    unfold lambert_mag lambert_y_pre lambert_z_pre
    rw [if_neg (by decide), if_neg (by decide), if_neg (by decide), if_neg (by decide)]
    rw [hxpre]
    simp
  have hval : (create_lambert_equal_area_gridpoint 2 "sideways").x 0 1 = 0 := by
    show lambert_x_pre (x_plane_grid 2 0 1) (z_plane_grid 2 0 1) /
      lambert_mag "sideways" (x_plane_grid 2 0 1) (z_plane_grid 2 0 1) = 0
    rw [hxpre, zero_div]
  refine ⟨?_, hxpre, hmag, ?_, ?_⟩
  · rw [hx]
    exact ne_of_gt hs2pos
  · rw [hval]; norm_num
  · rw [hval]; norm_num

/-- Witness for C10's amended theorem at the invalid hemisphere string
`"sideways"`, `n = 2`, cell `(0, 0)`. -/
theorem c10_witness :
    (("sideways" : String) ≠ "upper" ∧ ("sideways" : String) ≠ "lower") ∧
    (lambert_y_pre "sideways" (x_plane_grid 2 0 0) (z_plane_grid 2 0 0) = 0 ∧
    lambert_z_pre "sideways" (x_plane_grid 2 0 0) (z_plane_grid 2 0 0) = 0 ∧
    (create_lambert_equal_area_gridpoint 2 "sideways").y 0 0 = 0 ∧
    (create_lambert_equal_area_gridpoint 2 "sideways").z 0 0 = 0 ∧
    (lambert_x_pre (x_plane_grid 2 0 0) (z_plane_grid 2 0 0) ≠ 0 →
      ((create_lambert_equal_area_gridpoint 2 "sideways").x 0 0 = 1 ∨
        (create_lambert_equal_area_gridpoint 2 "sideways").x 0 0 = -1)) ∧
    (lambert_x_pre (x_plane_grid 2 0 0) (z_plane_grid 2 0 0) = 0 →
      lambert_mag "sideways" (x_plane_grid 2 0 0) (z_plane_grid 2 0 0) = 0)) :=
  ⟨⟨by decide, by decide⟩,
    c10_invalid_hemisphere "sideways" (by decide) (by decide) 2 0 0⟩

/-! ## Rotation converter

Embedding of `euler_angles_to_rotation_matrix` (`src/lib.rs` lines 671-695)
and `euler_angles_from_rotation_matrix` (`src/lib.rs` lines 740-779, in the
test module) over the reals.  Rust's `y.atan2(x)` is the principal argument
of the complex number `x + y i`, with range `(-pi, pi]` and `atan2 0 0 = 0`,
exactly like `Complex.arg`. -/

/-- Rust's `f64::atan2`: `atan2 y x` is the angle of the point `(x, y)`. -/
noncomputable def atan2 (y x : ℝ) : ℝ := Complex.arg ⟨x, y⟩

theorem cos_atan2 (y x : ℝ) (h : x ^ 2 + y ^ 2 = 1) :
    Real.cos (atan2 y x) = x := by
  have habs : Complex.abs ⟨x, y⟩ = 1 := by
    rw [Complex.abs_apply, Complex.normSq_mk]
    rw [show x * x + y * y = 1 by nlinarith]
    exact Real.sqrt_one
  have hne : (⟨x, y⟩ : ℂ) ≠ 0 := by
    intro h0
    rw [h0] at habs
    simp at habs
  unfold atan2
  rw [Complex.cos_arg hne, habs]
  simp

theorem sin_atan2 (y x : ℝ) (h : x ^ 2 + y ^ 2 = 1) :
    Real.sin (atan2 y x) = y := by
  have habs : Complex.abs ⟨x, y⟩ = 1 := by
    rw [Complex.abs_apply, Complex.normSq_mk]
    rw [show x * x + y * y = 1 by nlinarith]
    exact Real.sqrt_one
  unfold atan2
  rw [Complex.sin_arg, habs]
  simp

/-- The normalization into `[0, 2 pi)` applied to each extracted Euler angle
(`src/lib.rs` lines 771-776). -/
noncomputable def mod_two_pi (a : ℝ) : ℝ :=
  a - 2 * Real.pi * ⌊a / (2 * Real.pi)⌋

theorem cos_mod_two_pi (a : ℝ) : Real.cos (mod_two_pi a) = Real.cos a := by
  have hrw : mod_two_pi a = a - (⌊a / (2 * Real.pi)⌋ : ℤ) * (2 * Real.pi) := by
    unfold mod_two_pi; ring
  rw [hrw, Real.cos_sub_int_mul_two_pi]

theorem sin_mod_two_pi (a : ℝ) : Real.sin (mod_two_pi a) = Real.sin a := by
  have hrw : mod_two_pi a = a - (⌊a / (2 * Real.pi)⌋ : ℤ) * (2 * Real.pi) := by
    unfold mod_two_pi; ring
  rw [hrw, Real.sin_sub_int_mul_two_pi]

/-- Embedding of `euler_angles_to_rotation_matrix`: the Z-X-Z rotation
matrix built from the angle triple `(phi1, theta, phi2) = (ea 0, ea 1,
ea 2)`, entry by entry as in `src/lib.rs` lines 678-692. -/
noncomputable def euler_angles_to_rotation_matrix (ea : Fin 3 → ℝ) :
    Matrix (Fin 3) (Fin 3) ℝ :=
  !![Real.cos (ea 2) * Real.cos (ea 0) -
      Real.cos (ea 1) * Real.sin (ea 0) * Real.sin (ea 2),
    -(Real.cos (ea 2)) * Real.sin (ea 0) -
      Real.cos (ea 1) * Real.cos (ea 0) * Real.sin (ea 2),
    -(Real.sin (ea 2)) * Real.sin (ea 1);
    Real.sin (ea 2) * Real.cos (ea 0) +
      Real.cos (ea 1) * Real.sin (ea 0) * Real.cos (ea 2),
    -(Real.sin (ea 2)) * Real.sin (ea 0) +
      Real.cos (ea 1) * Real.cos (ea 0) * Real.cos (ea 2),
    Real.cos (ea 2) * Real.sin (ea 1);
    -(Real.sin (ea 1)) * Real.sin (ea 0),
    -(Real.sin (ea 1)) * Real.cos (ea 0),
    Real.cos (ea 1)]

open Classical in
/-- Embedding of `euler_angles_from_rotation_matrix`: `theta` is
`acos(M[2][2])`; away from the gimbal-lock cases `theta = 0` and
`theta = pi` the two remaining angles come from `atan2` of the scaled
border entries; in the degenerate cases `phi1` stays `0` and `phi2` is
solved from the top-left entries; all three angles are normalized into
`[0, 2 pi)`. -/
noncomputable def euler_angles_from_rotation_matrix
    (M : Matrix (Fin 3) (Fin 3) ℝ) : Fin 3 → ℝ :=
  let theta := Real.arccos (M 2 2)
  let phi1 : ℝ :=
    if theta ≠ 0 ∧ theta ≠ Real.pi then
      atan2 (M 2 0 / (-Real.sin theta)) (M 2 1 / (-Real.sin theta))
    else 0
  let phi2 : ℝ :=
    if theta ≠ 0 ∧ theta ≠ Real.pi then
      atan2 (M 0 2 / (-Real.sin theta)) (M 1 2 / Real.sin theta)
    else if theta = 0 then -phi1 - atan2 (M 0 1) (M 0 0)
    else phi1 + atan2 (M 0 1) (M 0 0)
  fun i => mod_two_pi (![phi1, theta, phi2] i)

theorem rot_row_eq (M : Matrix (Fin 3) (Fin 3) ℝ) (hMMt : M * M.transpose = 1)
    (i k : Fin 3) :
    M i 0 * M k 0 + M i 1 * M k 1 + M i 2 * M k 2 = if i = k then 1 else 0 := by
  have h : (M * M.transpose) i k = (1 : Matrix (Fin 3) (Fin 3) ℝ) i k := by
    rw [hMMt]
  rw [Matrix.mul_apply, Fin.sum_univ_three] at h
  simp only [Matrix.transpose_apply, Matrix.one_apply] at h
  exact h

theorem rot_col_eq (M : Matrix (Fin 3) (Fin 3) ℝ) (hMMt : M * M.transpose = 1)
    (i k : Fin 3) :
    M 0 i * M 0 k + M 1 i * M 1 k + M 2 i * M 2 k = if i = k then 1 else 0 := by
  have hMtM : M.transpose * M = 1 := Matrix.mul_eq_one_comm.mp hMMt
  have h : (M.transpose * M) i k = (1 : Matrix (Fin 3) (Fin 3) ℝ) i k := by
    rw [hMtM]
  rw [Matrix.mul_apply, Fin.sum_univ_three] at h
  simp only [Matrix.transpose_apply, Matrix.one_apply] at h
  exact h

theorem rot_adjugate_eq_transpose (M : Matrix (Fin 3) (Fin 3) ℝ)
    (hMMt : M * M.transpose = 1) (hdet : M.det = 1) :
    M.adjugate = M.transpose := by
  have h1 : M.adjugate * M = 1 := by
    rw [Matrix.adjugate_mul, hdet, one_smul]
  calc M.adjugate = M.adjugate * (M * M.transpose) := by rw [hMMt, Matrix.mul_one]
  _ = M.adjugate * M * M.transpose := by rw [Matrix.mul_assoc]
  _ = M.transpose := by rw [h1, Matrix.one_mul]

theorem rot_cofactor_20 (M : Matrix (Fin 3) (Fin 3) ℝ)
    (hMMt : M * M.transpose = 1) (hdet : M.det = 1) :
    M 2 0 = M 0 1 * M 1 2 - M 0 2 * M 1 1 := by
  have hadj := rot_adjugate_eq_transpose M hMMt hdet
  rw [Matrix.adjugate_fin_three] at hadj
  have h : (!![M 1 1 * M 2 2 - M 1 2 * M 2 1,
      -(M 0 1 * M 2 2) + M 0 2 * M 2 1,
      M 0 1 * M 1 2 - M 0 2 * M 1 1;
      -(M 1 0 * M 2 2) + M 1 2 * M 2 0,
      M 0 0 * M 2 2 - M 0 2 * M 2 0,
      -(M 0 0 * M 1 2) + M 0 2 * M 1 0;
      M 1 0 * M 2 1 - M 1 1 * M 2 0,
      -(M 0 0 * M 2 1) + M 0 1 * M 2 0,
      M 0 0 * M 1 1 - M 0 1 * M 1 0] : Matrix (Fin 3) (Fin 3) ℝ) 0 2 =
      M.transpose 0 2 := by rw [hadj]
  simp only [Matrix.transpose_apply] at h
  simp at h
  linarith [h]

theorem rot_cofactor_21 (M : Matrix (Fin 3) (Fin 3) ℝ)
    (hMMt : M * M.transpose = 1) (hdet : M.det = 1) :
    M 2 1 = -(M 0 0 * M 1 2) + M 0 2 * M 1 0 := by
  have hadj := rot_adjugate_eq_transpose M hMMt hdet
  rw [Matrix.adjugate_fin_three] at hadj
  have h : (!![M 1 1 * M 2 2 - M 1 2 * M 2 1,
      -(M 0 1 * M 2 2) + M 0 2 * M 2 1,
      M 0 1 * M 1 2 - M 0 2 * M 1 1;
      -(M 1 0 * M 2 2) + M 1 2 * M 2 0,
      M 0 0 * M 2 2 - M 0 2 * M 2 0,
      -(M 0 0 * M 1 2) + M 0 2 * M 1 0;
      M 1 0 * M 2 1 - M 1 1 * M 2 0,
      -(M 0 0 * M 2 1) + M 0 1 * M 2 0,
      M 0 0 * M 1 1 - M 0 1 * M 1 0] : Matrix (Fin 3) (Fin 3) ℝ) 1 2 =
      M.transpose 1 2 := by rw [hadj]
  simp only [Matrix.transpose_apply] at h
  simp at h
  linarith [h]

theorem euler_from_gen_apply (M : Matrix (Fin 3) (Fin 3) ℝ)
    (hgen : Real.arccos (M 2 2) ≠ 0 ∧ Real.arccos (M 2 2) ≠ Real.pi) :
    euler_angles_from_rotation_matrix M = fun i => mod_two_pi
      (![atan2 (M 2 0 / -Real.sin (Real.arccos (M 2 2)))
          (M 2 1 / -Real.sin (Real.arccos (M 2 2))),
        Real.arccos (M 2 2),
        atan2 (M 0 2 / -Real.sin (Real.arccos (M 2 2)))
          (M 1 2 / Real.sin (Real.arccos (M 2 2)))] i) := by
  funext i
  simp only [euler_angles_from_rotation_matrix]
  rw [if_pos hgen, if_pos hgen]

theorem euler_from_zero_apply (M : Matrix (Fin 3) (Fin 3) ℝ)
    (h0 : Real.arccos (M 2 2) = 0) :
    euler_angles_from_rotation_matrix M = fun i => mod_two_pi
      (![0, Real.arccos (M 2 2), -0 - atan2 (M 0 1) (M 0 0)] i) := by
  have hnot : ¬ (Real.arccos (M 2 2) ≠ 0 ∧ Real.arccos (M 2 2) ≠ Real.pi) := by
    intro h; exact h.1 h0
  funext i
  simp only [euler_angles_from_rotation_matrix]
  rw [if_neg hnot, if_neg hnot, if_pos h0]

theorem euler_from_pi_apply (M : Matrix (Fin 3) (Fin 3) ℝ)
    (hpi : Real.arccos (M 2 2) = Real.pi)
    (hne : Real.arccos (M 2 2) ≠ 0) :
    euler_angles_from_rotation_matrix M = fun i => mod_two_pi
      (![0, Real.arccos (M 2 2), 0 + atan2 (M 0 1) (M 0 0)] i) := by
  have hnot : ¬ (Real.arccos (M 2 2) ≠ 0 ∧ Real.arccos (M 2 2) ≠ Real.pi) := by
    intro h; exact h.2 hpi
  funext i
  simp only [euler_angles_from_rotation_matrix]
  rw [if_neg hnot, if_neg hnot, if_neg hne]

set_option maxHeartbeats 1000000 in
theorem euler_roundtrip_generic (M : Matrix (Fin 3) (Fin 3) ℝ)
    (hMMt : M * M.transpose = 1) (hdet : M.det = 1)
    (hne0 : Real.arccos (M 2 2) ≠ 0) (hnepi : Real.arccos (M 2 2) ≠ Real.pi) :
    euler_angles_to_rotation_matrix (euler_angles_from_rotation_matrix M) = M := by
  have hrow2 : M 2 0 * M 2 0 + M 2 1 * M 2 1 + M 2 2 * M 2 2 = 1 := by
    have := rot_row_eq M hMMt 2 2; simpa using this
  have hcol2 : M 0 2 * M 0 2 + M 1 2 * M 1 2 + M 2 2 * M 2 2 = 1 := by
    have := rot_col_eq M hMMt 2 2; simpa using this
  have hcol02 : M 0 0 * M 0 2 + M 1 0 * M 1 2 + M 2 0 * M 2 2 = 0 := by
    have := rot_col_eq M hMMt 0 2; simpa using this
  have hcol12 : M 0 1 * M 0 2 + M 1 1 * M 1 2 + M 2 1 * M 2 2 = 0 := by
    have := rot_col_eq M hMMt 1 2; simpa using this
  have hcof20 := rot_cofactor_20 M hMMt hdet
  have hcof21 := rot_cofactor_21 M hMMt hdet
  have hm22low : -1 ≤ M 2 2 := by
    nlinarith [sq_nonneg (M 2 2 + 1), sq_nonneg (M 2 0), sq_nonneg (M 2 1)]
  have hm22high : M 2 2 ≤ 1 := by
    nlinarith [sq_nonneg (M 2 2 - 1), sq_nonneg (M 2 0), sq_nonneg (M 2 1)]
  have hcos : Real.cos (Real.arccos (M 2 2)) = M 2 2 := Real.cos_arccos hm22low hm22high
  have hθpos : 0 < Real.arccos (M 2 2) :=
    lt_of_le_of_ne (Real.arccos_nonneg _) (Ne.symm hne0)
  have hθlt : Real.arccos (M 2 2) < Real.pi :=
    lt_of_le_of_ne (Real.arccos_le_pi _) hnepi
  have hsin : 0 < Real.sin (Real.arccos (M 2 2)) :=
    Real.sin_pos_of_pos_of_lt_pi hθpos hθlt
  rw [euler_from_gen_apply M ⟨hne0, hnepi⟩]
  set s := Real.sin (Real.arccos (M 2 2)) with hsdef
  have hsne : s ≠ 0 := ne_of_gt hsin
  have hs2 : s ^ 2 = 1 - M 2 2 ^ 2 := by
    have hpy := Real.sin_sq_add_cos_sq (Real.arccos (M 2 2))
    rw [hcos, ← hsdef] at hpy
    nlinarith [hpy]
  have hone : (1 : ℝ) - M 2 2 ^ 2 ≠ 0 := by
    rw [← hs2]; exact pow_ne_zero 2 hsne
  have hu1 : (M 2 1 / -s) ^ 2 + (M 2 0 / -s) ^ 2 = 1 := by
    rw [div_pow, div_pow, neg_pow, div_add_div_same]
    rw [show (-1 : ℝ) ^ 2 * s ^ 2 = s ^ 2 by ring,
      show M 2 1 ^ 2 + M 2 0 ^ 2 = s ^ 2 by linear_combination hrow2 - hs2]
    exact div_self (pow_ne_zero 2 hsne)
  have hu2 : (M 1 2 / s) ^ 2 + (M 0 2 / -s) ^ 2 = 1 := by
    rw [div_pow, div_pow, neg_pow, show (-1 : ℝ) ^ 2 * s ^ 2 = s ^ 2 by ring,
      div_add_div_same,
      show M 1 2 ^ 2 + M 0 2 ^ 2 = s ^ 2 by linear_combination hcol2 - hs2]
    exact div_self (pow_ne_zero 2 hsne)
  have hcos1 := cos_atan2 _ _ hu1
  have hsin1 := sin_atan2 _ _ hu1
  have hcos2 := cos_atan2 _ _ hu2
  have hsin2 := sin_atan2 _ _ hu2
  set p1 := atan2 (M 2 0 / -s) (M 2 1 / -s) with hp1
  set p2 := atan2 (M 0 2 / -s) (M 1 2 / s) with hp2
  have hid1 : M 0 0 * (1 - M 2 2 ^ 2) = -(M 1 2 * M 2 1) - M 2 2 * M 2 0 * M 0 2 := by
    linear_combination (-(M 0 0)) * hcol2 + (M 0 2) * hcol02 + (M 1 2) * hcof21
  have hid2 : M 0 1 * (1 - M 2 2 ^ 2) = M 1 2 * M 2 0 - M 2 2 * M 2 1 * M 0 2 := by
    linear_combination (-(M 0 1)) * hcol2 + (M 0 2) * hcol12 + (-(M 1 2)) * hcof20
  have hid3 : M 1 0 * (1 - M 2 2 ^ 2) = M 0 2 * M 2 1 - M 2 2 * M 2 0 * M 1 2 := by
    linear_combination (-(M 1 0)) * hcol2 + (M 1 2) * hcol02 + (-(M 0 2)) * hcof21
  have hid4 : M 1 1 * (1 - M 2 2 ^ 2) = -(M 0 2 * M 2 0) - M 2 2 * M 2 1 * M 1 2 := by
    linear_combination (-(M 1 1)) * hcol2 + (M 1 2) * hcol12 + (M 0 2) * hcof20
  ext i j
  fin_cases i <;> fin_cases j
  · show Real.cos (mod_two_pi p2) * Real.cos (mod_two_pi p1) -
        Real.cos (mod_two_pi (Real.arccos (M 2 2))) * Real.sin (mod_two_pi p1) *
          Real.sin (mod_two_pi p2) = M 0 0
    simp only [cos_mod_two_pi, sin_mod_two_pi, hcos, hcos1, hsin1, hcos2, hsin2]
    have key : M 1 2 / s * (M 2 1 / -s) - M 2 2 * (M 2 0 / -s) * (M 0 2 / -s) =
        (-(M 1 2 * M 2 1) - M 2 2 * M 2 0 * M 0 2) / s ^ 2 := by
      field_simp
      ring
    rw [key, hs2, ← hid1, mul_div_assoc, div_self hone, mul_one]
  · show -(Real.cos (mod_two_pi p2)) * Real.sin (mod_two_pi p1) -
        Real.cos (mod_two_pi (Real.arccos (M 2 2))) * Real.cos (mod_two_pi p1) *
          Real.sin (mod_two_pi p2) = M 0 1
    simp only [cos_mod_two_pi, sin_mod_two_pi, hcos, hcos1, hsin1, hcos2, hsin2]
    have key : -(M 1 2 / s) * (M 2 0 / -s) - M 2 2 * (M 2 1 / -s) * (M 0 2 / -s) =
        (M 1 2 * M 2 0 - M 2 2 * M 2 1 * M 0 2) / s ^ 2 := by
      field_simp
      ring_nf
      exact Or.inl trivial
    rw [key, hs2, ← hid2, mul_div_assoc, div_self hone, mul_one]
  · show -(Real.sin (mod_two_pi p2)) * Real.sin (mod_two_pi (Real.arccos (M 2 2))) =
        M 0 2
    simp only [cos_mod_two_pi, sin_mod_two_pi, ← hsdef, hcos1, hsin1, hcos2, hsin2]
    field_simp
  · show Real.sin (mod_two_pi p2) * Real.cos (mod_two_pi p1) +
        Real.cos (mod_two_pi (Real.arccos (M 2 2))) * Real.sin (mod_two_pi p1) *
          Real.cos (mod_two_pi p2) = M 1 0
    simp only [cos_mod_two_pi, sin_mod_two_pi, hcos, hcos1, hsin1, hcos2, hsin2]
    have key : M 0 2 / -s * (M 2 1 / -s) + M 2 2 * (M 2 0 / -s) * (M 1 2 / s) =
        (M 0 2 * M 2 1 - M 2 2 * M 2 0 * M 1 2) / s ^ 2 := by
      field_simp
      ring
    rw [key, hs2, ← hid3, mul_div_assoc, div_self hone, mul_one]
  · show -(Real.sin (mod_two_pi p2)) * Real.sin (mod_two_pi p1) +
        Real.cos (mod_two_pi (Real.arccos (M 2 2))) * Real.cos (mod_two_pi p1) *
          Real.cos (mod_two_pi p2) = M 1 1
    simp only [cos_mod_two_pi, sin_mod_two_pi, hcos, hcos1, hsin1, hcos2, hsin2]
    have key : -(M 0 2 / -s) * (M 2 0 / -s) + M 2 2 * (M 2 1 / -s) * (M 1 2 / s) =
        (-(M 0 2 * M 2 0) - M 2 2 * M 2 1 * M 1 2) / s ^ 2 := by
      field_simp
      ring
    rw [key, hs2, ← hid4, mul_div_assoc, div_self hone, mul_one]
  · show Real.cos (mod_two_pi p2) * Real.sin (mod_two_pi (Real.arccos (M 2 2))) =
        M 1 2
    simp only [cos_mod_two_pi, sin_mod_two_pi, ← hsdef, hcos1, hsin1, hcos2, hsin2]
    field_simp
  · show -(Real.sin (mod_two_pi (Real.arccos (M 2 2)))) * Real.sin (mod_two_pi p1) =
        M 2 0
    simp only [cos_mod_two_pi, sin_mod_two_pi, ← hsdef, hcos1, hsin1, hcos2, hsin2]
    field_simp
  · show -(Real.sin (mod_two_pi (Real.arccos (M 2 2)))) * Real.cos (mod_two_pi p1) =
        M 2 1
    simp only [cos_mod_two_pi, sin_mod_two_pi, ← hsdef, hcos1, hsin1, hcos2, hsin2]
    field_simp
  · show Real.cos (mod_two_pi (Real.arccos (M 2 2))) = M 2 2
    rw [cos_mod_two_pi, hcos]

set_option maxHeartbeats 1000000 in
theorem euler_roundtrip_zero (M : Matrix (Fin 3) (Fin 3) ℝ)
    (hMMt : M * M.transpose = 1) (hdet : M.det = 1)
    (h0 : Real.arccos (M 2 2) = 0) :
    euler_angles_to_rotation_matrix (euler_angles_from_rotation_matrix M) = M := by
  have hrow2 : M 2 0 * M 2 0 + M 2 1 * M 2 1 + M 2 2 * M 2 2 = 1 := by
    have := rot_row_eq M hMMt 2 2; simpa using this
  have hcol2 : M 0 2 * M 0 2 + M 1 2 * M 1 2 + M 2 2 * M 2 2 = 1 := by
    have := rot_col_eq M hMMt 2 2; simpa using this
  have hrow0 : M 0 0 * M 0 0 + M 0 1 * M 0 1 + M 0 2 * M 0 2 = 1 := by
    have := rot_row_eq M hMMt 0 0; simpa using this
  have horth : M 0 0 * M 1 0 + M 0 1 * M 1 1 + M 0 2 * M 1 2 = 0 := by
    have := rot_row_eq M hMMt 0 1; simpa using this
  have hm22high : M 2 2 ≤ 1 := by
    nlinarith [sq_nonneg (M 2 2 - 1), sq_nonneg (M 2 0), sq_nonneg (M 2 1)]
  have hm22 : M 2 2 = 1 :=
    le_antisymm hm22high (Real.arccos_eq_zero.mp h0)
  have hsq2 : M 2 0 * M 2 0 + M 2 1 * M 2 1 = 0 := by
    linear_combination hrow2 - (M 2 2 + 1) * hm22
  have h20 : M 2 0 = 0 := by
    have h : M 2 0 * M 2 0 = 0 :=
      le_antisymm (by nlinarith [mul_self_nonneg (M 2 1)]) (mul_self_nonneg _)
    exact mul_self_eq_zero.mp h
  have h21 : M 2 1 = 0 := by
    have h : M 2 1 * M 2 1 = 0 :=
      le_antisymm (by nlinarith [mul_self_nonneg (M 2 0)]) (mul_self_nonneg _)
    exact mul_self_eq_zero.mp h
  have hsqc : M 0 2 * M 0 2 + M 1 2 * M 1 2 = 0 := by
    linear_combination hcol2 - (M 2 2 + 1) * hm22
  have h02 : M 0 2 = 0 := by
    have h : M 0 2 * M 0 2 = 0 :=
      le_antisymm (by nlinarith [mul_self_nonneg (M 1 2)]) (mul_self_nonneg _)
    exact mul_self_eq_zero.mp h
  have h12 : M 1 2 = 0 := by
    have h : M 1 2 * M 1 2 = 0 :=
      le_antisymm (by nlinarith [mul_self_nonneg (M 0 2)]) (mul_self_nonneg _)
    exact mul_self_eq_zero.mp h
  rw [Matrix.det_fin_three] at hdet
  have hd : M 0 0 * M 1 1 - M 0 1 * M 1 0 = 1 := by
    linear_combination hdet + (M 0 1 * M 1 0 - M 0 0 * M 1 1) * hm22 +
      (M 0 0 * M 1 2 - M 0 2 * M 1 0) * h21 + (M 0 2 * M 1 1 - M 0 1 * M 1 2) * h20
  have hrow0' : M 0 0 * M 0 0 + M 0 1 * M 0 1 = 1 := by
    linear_combination hrow0 - M 0 2 * h02
  have horth' : M 0 0 * M 1 0 + M 0 1 * M 1 1 = 0 := by
    linear_combination horth - M 1 2 * h02
  have hM11 : M 1 1 = M 0 0 := by
    linear_combination (-(M 1 1)) * hrow0' + M 0 0 * hd + M 0 1 * horth'
  have hM10 : M 1 0 = -(M 0 1) := by
    linear_combination (-(M 1 0)) * hrow0' + (-(M 0 1)) * hd + M 0 0 * horth'
  have hu : M 0 0 ^ 2 + M 0 1 ^ 2 = 1 := by linear_combination hrow0'
  have hca := cos_atan2 (M 0 1) (M 0 0) hu
  have hsa := sin_atan2 (M 0 1) (M 0 0) hu
  rw [euler_from_zero_apply M h0]
  ext i j
  fin_cases i <;> fin_cases j
  · show Real.cos (mod_two_pi (-0 - atan2 (M 0 1) (M 0 0))) * Real.cos (mod_two_pi 0) -
        Real.cos (mod_two_pi (Real.arccos (M 2 2))) * Real.sin (mod_two_pi 0) *
          Real.sin (mod_two_pi (-0 - atan2 (M 0 1) (M 0 0))) = M 0 0
    simp only [cos_mod_two_pi, sin_mod_two_pi, h0, Real.cos_zero, Real.sin_zero,
      neg_zero, zero_sub, Real.cos_neg, Real.sin_neg, hca, hsa]
    ring
  · show -(Real.cos (mod_two_pi (-0 - atan2 (M 0 1) (M 0 0)))) * Real.sin (mod_two_pi 0) -
        Real.cos (mod_two_pi (Real.arccos (M 2 2))) * Real.cos (mod_two_pi 0) *
          Real.sin (mod_two_pi (-0 - atan2 (M 0 1) (M 0 0))) = M 0 1
    simp only [cos_mod_two_pi, sin_mod_two_pi, h0, Real.cos_zero, Real.sin_zero,
      neg_zero, zero_sub, Real.cos_neg, Real.sin_neg, hca, hsa]
    ring
  · show -(Real.sin (mod_two_pi (-0 - atan2 (M 0 1) (M 0 0)))) *
        Real.sin (mod_two_pi (Real.arccos (M 2 2))) = M 0 2
    simp only [cos_mod_two_pi, sin_mod_two_pi, h0, Real.cos_zero, Real.sin_zero,
      neg_zero, zero_sub, Real.cos_neg, Real.sin_neg, hca, hsa]
    linear_combination -h02
  · show Real.sin (mod_two_pi (-0 - atan2 (M 0 1) (M 0 0))) * Real.cos (mod_two_pi 0) +
        Real.cos (mod_two_pi (Real.arccos (M 2 2))) * Real.sin (mod_two_pi 0) *
          Real.cos (mod_two_pi (-0 - atan2 (M 0 1) (M 0 0))) = M 1 0
    simp only [cos_mod_two_pi, sin_mod_two_pi, h0, Real.cos_zero, Real.sin_zero,
      neg_zero, zero_sub, Real.cos_neg, Real.sin_neg, hca, hsa]
    linear_combination -hM10
  · show -(Real.sin (mod_two_pi (-0 - atan2 (M 0 1) (M 0 0)))) * Real.sin (mod_two_pi 0) +
        Real.cos (mod_two_pi (Real.arccos (M 2 2))) * Real.cos (mod_two_pi 0) *
          Real.cos (mod_two_pi (-0 - atan2 (M 0 1) (M 0 0))) = M 1 1
    simp only [cos_mod_two_pi, sin_mod_two_pi, h0, Real.cos_zero, Real.sin_zero,
      neg_zero, zero_sub, Real.cos_neg, Real.sin_neg, hca, hsa]
    linear_combination -hM11
  · show Real.cos (mod_two_pi (-0 - atan2 (M 0 1) (M 0 0))) *
        Real.sin (mod_two_pi (Real.arccos (M 2 2))) = M 1 2
    simp only [cos_mod_two_pi, sin_mod_two_pi, h0, Real.cos_zero, Real.sin_zero,
      neg_zero, zero_sub, Real.cos_neg, Real.sin_neg, hca, hsa]
    linear_combination -h12
  · show -(Real.sin (mod_two_pi (Real.arccos (M 2 2)))) * Real.sin (mod_two_pi 0) = M 2 0
    simp only [cos_mod_two_pi, sin_mod_two_pi, h0, Real.cos_zero, Real.sin_zero]
    linear_combination -h20
  · show -(Real.sin (mod_two_pi (Real.arccos (M 2 2)))) * Real.cos (mod_two_pi 0) = M 2 1
    simp only [cos_mod_two_pi, sin_mod_two_pi, h0, Real.cos_zero, Real.sin_zero]
    linear_combination -h21
  · show Real.cos (mod_two_pi (Real.arccos (M 2 2))) = M 2 2
    simp only [cos_mod_two_pi, h0, Real.cos_zero]
    linear_combination -hm22

set_option maxHeartbeats 1000000 in
theorem euler_roundtrip_pi (M : Matrix (Fin 3) (Fin 3) ℝ)
    (hMMt : M * M.transpose = 1) (hdet : M.det = 1)
    (hpi : Real.arccos (M 2 2) = Real.pi) :
    euler_angles_to_rotation_matrix (euler_angles_from_rotation_matrix M) = M := by
  have hrow2 : M 2 0 * M 2 0 + M 2 1 * M 2 1 + M 2 2 * M 2 2 = 1 := by
    have := rot_row_eq M hMMt 2 2; simpa using this
  have hcol2 : M 0 2 * M 0 2 + M 1 2 * M 1 2 + M 2 2 * M 2 2 = 1 := by
    have := rot_col_eq M hMMt 2 2; simpa using this
  have hrow0 : M 0 0 * M 0 0 + M 0 1 * M 0 1 + M 0 2 * M 0 2 = 1 := by
    have := rot_row_eq M hMMt 0 0; simpa using this
  have horth : M 0 0 * M 1 0 + M 0 1 * M 1 1 + M 0 2 * M 1 2 = 0 := by
    have := rot_row_eq M hMMt 0 1; simpa using this
  have hm22low : -1 ≤ M 2 2 := by
    nlinarith [sq_nonneg (M 2 2 + 1), sq_nonneg (M 2 0), sq_nonneg (M 2 1)]
  have hm22 : M 2 2 = -1 :=
    le_antisymm (Real.arccos_eq_pi.mp hpi) hm22low
  have hsq2 : M 2 0 * M 2 0 + M 2 1 * M 2 1 = 0 := by
    linear_combination hrow2 - (M 2 2 - 1) * hm22
  have h20 : M 2 0 = 0 := by
    have h : M 2 0 * M 2 0 = 0 :=
      le_antisymm (by nlinarith [mul_self_nonneg (M 2 1)]) (mul_self_nonneg _)
    exact mul_self_eq_zero.mp h
  have h21 : M 2 1 = 0 := by
    have h : M 2 1 * M 2 1 = 0 :=
      le_antisymm (by nlinarith [mul_self_nonneg (M 2 0)]) (mul_self_nonneg _)
    exact mul_self_eq_zero.mp h
  have hsqc : M 0 2 * M 0 2 + M 1 2 * M 1 2 = 0 := by
    linear_combination hcol2 - (M 2 2 - 1) * hm22
  have h02 : M 0 2 = 0 := by
    have h : M 0 2 * M 0 2 = 0 :=
      le_antisymm (by nlinarith [mul_self_nonneg (M 1 2)]) (mul_self_nonneg _)
    exact mul_self_eq_zero.mp h
  have h12 : M 1 2 = 0 := by
    have h : M 1 2 * M 1 2 = 0 :=
      le_antisymm (by nlinarith [mul_self_nonneg (M 0 2)]) (mul_self_nonneg _)
    exact mul_self_eq_zero.mp h
  rw [Matrix.det_fin_three] at hdet
  have hd : M 0 0 * M 1 1 - M 0 1 * M 1 0 = -1 := by
    linear_combination -hdet + (M 0 0 * M 1 1 - M 0 1 * M 1 0) * hm22 +
      (M 0 2 * M 1 0 - M 0 0 * M 1 2) * h21 + (M 0 1 * M 1 2 - M 0 2 * M 1 1) * h20
  have hrow0' : M 0 0 * M 0 0 + M 0 1 * M 0 1 = 1 := by
    linear_combination hrow0 - M 0 2 * h02
  have horth' : M 0 0 * M 1 0 + M 0 1 * M 1 1 = 0 := by
    linear_combination horth - M 1 2 * h02
  have hM11 : M 1 1 = -(M 0 0) := by
    linear_combination (-(M 1 1)) * hrow0' + M 0 0 * hd + M 0 1 * horth'
  have hM10 : M 1 0 = M 0 1 := by
    linear_combination (-(M 1 0)) * hrow0' + (-(M 0 1)) * hd + M 0 0 * horth'
  have hu : M 0 0 ^ 2 + M 0 1 ^ 2 = 1 := by linear_combination hrow0'
  have hca := cos_atan2 (M 0 1) (M 0 0) hu
  have hsa := sin_atan2 (M 0 1) (M 0 0) hu
  have hne0 : Real.arccos (M 2 2) ≠ 0 := by
    rw [hpi]; exact Real.pi_ne_zero
  rw [euler_from_pi_apply M hpi hne0]
  ext i j
  fin_cases i <;> fin_cases j
  · show Real.cos (mod_two_pi (0 + atan2 (M 0 1) (M 0 0))) * Real.cos (mod_two_pi 0) -
        Real.cos (mod_two_pi (Real.arccos (M 2 2))) * Real.sin (mod_two_pi 0) *
          Real.sin (mod_two_pi (0 + atan2 (M 0 1) (M 0 0))) = M 0 0
    simp only [cos_mod_two_pi, sin_mod_two_pi, hpi, Real.cos_zero, Real.sin_zero,
      Real.cos_pi, Real.sin_pi, zero_add, hca, hsa]
    ring
  · show -(Real.cos (mod_two_pi (0 + atan2 (M 0 1) (M 0 0)))) * Real.sin (mod_two_pi 0) -
        Real.cos (mod_two_pi (Real.arccos (M 2 2))) * Real.cos (mod_two_pi 0) *
          Real.sin (mod_two_pi (0 + atan2 (M 0 1) (M 0 0))) = M 0 1
    simp only [cos_mod_two_pi, sin_mod_two_pi, hpi, Real.cos_zero, Real.sin_zero,
      Real.cos_pi, Real.sin_pi, zero_add, hca, hsa]
    ring
  · show -(Real.sin (mod_two_pi (0 + atan2 (M 0 1) (M 0 0)))) *
        Real.sin (mod_two_pi (Real.arccos (M 2 2))) = M 0 2
    simp only [cos_mod_two_pi, sin_mod_two_pi, hpi, Real.cos_zero, Real.sin_zero,
      Real.cos_pi, Real.sin_pi, zero_add, hca, hsa]
    linear_combination -h02
  · show Real.sin (mod_two_pi (0 + atan2 (M 0 1) (M 0 0))) * Real.cos (mod_two_pi 0) +
        Real.cos (mod_two_pi (Real.arccos (M 2 2))) * Real.sin (mod_two_pi 0) *
          Real.cos (mod_two_pi (0 + atan2 (M 0 1) (M 0 0))) = M 1 0
    simp only [cos_mod_two_pi, sin_mod_two_pi, hpi, Real.cos_zero, Real.sin_zero,
      Real.cos_pi, Real.sin_pi, zero_add, hca, hsa]
    linear_combination -hM10
  · show -(Real.sin (mod_two_pi (0 + atan2 (M 0 1) (M 0 0)))) * Real.sin (mod_two_pi 0) +
        Real.cos (mod_two_pi (Real.arccos (M 2 2))) * Real.cos (mod_two_pi 0) *
          Real.cos (mod_two_pi (0 + atan2 (M 0 1) (M 0 0))) = M 1 1
    simp only [cos_mod_two_pi, sin_mod_two_pi, hpi, Real.cos_zero, Real.sin_zero,
      Real.cos_pi, Real.sin_pi, zero_add, hca, hsa]
    linear_combination -hM11
  · show Real.cos (mod_two_pi (0 + atan2 (M 0 1) (M 0 0))) *
        Real.sin (mod_two_pi (Real.arccos (M 2 2))) = M 1 2
    simp only [cos_mod_two_pi, sin_mod_two_pi, hpi, Real.cos_zero, Real.sin_zero,
      Real.cos_pi, Real.sin_pi, zero_add, hca, hsa]
    linear_combination -h12
  · show -(Real.sin (mod_two_pi (Real.arccos (M 2 2)))) * Real.sin (mod_two_pi 0) = M 2 0
    simp only [cos_mod_two_pi, sin_mod_two_pi, hpi, Real.cos_zero, Real.sin_zero,
      Real.cos_pi, Real.sin_pi]
    linear_combination -h20
  · show -(Real.sin (mod_two_pi (Real.arccos (M 2 2)))) * Real.cos (mod_two_pi 0) = M 2 1
    simp only [cos_mod_two_pi, sin_mod_two_pi, hpi, Real.cos_zero, Real.sin_zero,
      Real.cos_pi, Real.sin_pi]
    linear_combination -h21
  · show Real.cos (mod_two_pi (Real.arccos (M 2 2))) = M 2 2
    simp only [cos_mod_two_pi, hpi, Real.cos_pi]
    linear_combination -hm22

theorem euler_roundtrip_exact (M : Matrix (Fin 3) (Fin 3) ℝ)
    (hMMt : M * M.transpose = 1) (hdet : M.det = 1) :
    euler_angles_to_rotation_matrix (euler_angles_from_rotation_matrix M) = M := by
  by_cases h0 : Real.arccos (M 2 2) = 0
  · exact euler_roundtrip_zero M hMMt hdet h0
  · by_cases hpi : Real.arccos (M 2 2) = Real.pi
    · exact euler_roundtrip_pi M hMMt hdet hpi
    · exact euler_roundtrip_generic M hMMt hdet h0 hpi

/-- C1: for every 3-by-3 rotation matrix `M` (orthogonal with determinant
`+1`), composing the Euler-angle extraction with the Euler-angles-to-matrix
conversion reproduces `M` entrywise within `1e-8` — the gimbal-lock cases
`M 2 2 = 1` (`theta = 0`) and `M 2 2 = -1` (`theta = pi`) included.  In the
real-number model the round trip is exact, so the bound holds. -/
theorem c1_euler_roundtrip (M : Matrix (Fin 3) (Fin 3) ℝ)
    (hMMt : M * M.transpose = 1) (hdet : M.det = 1) :
    ∀ i j, |euler_angles_to_rotation_matrix (euler_angles_from_rotation_matrix M) i j -
      M i j| ≤ 1 / 10 ^ 8 := by
  intro i j
  rw [euler_roundtrip_exact M hMMt hdet]
  simp only [sub_self, abs_zero]
  norm_num

/-- The 3-4-5 based rotation matrix used by the crate's own round-trip
test (`src/lib.rs` lines 782-795). -/
noncomputable def test_rotation_matrix : Matrix (Fin 3) (Fin 3) ℝ :=
  !![0.36, 0.48, -0.8; -0.8, 0.6, 0; 0.48, 0.64, 0.6]

theorem test_rotation_matrix_orthogonal :
    test_rotation_matrix * test_rotation_matrix.transpose = 1 := by
  unfold test_rotation_matrix
  ext i j
  rw [Matrix.mul_apply, Fin.sum_univ_three]
  fin_cases i <;> fin_cases j <;>
    simp [Matrix.transpose_apply, Matrix.one_apply] <;> norm_num

theorem test_rotation_matrix_det : test_rotation_matrix.det = 1 := by
  unfold test_rotation_matrix
  rw [Matrix.det_fin_three]
  norm_num

/-- Witness for C1 at the crate's own test matrix. -/
theorem c1_witness :
    (test_rotation_matrix * test_rotation_matrix.transpose = 1 ∧
      test_rotation_matrix.det = 1) ∧
    ∀ i j, |euler_angles_to_rotation_matrix
        (euler_angles_from_rotation_matrix test_rotation_matrix) i j -
      test_rotation_matrix i j| ≤ 1 / 10 ^ 8 :=
  ⟨⟨test_rotation_matrix_orthogonal, test_rotation_matrix_det⟩,
    c1_euler_roundtrip test_rotation_matrix test_rotation_matrix_orthogonal
      test_rotation_matrix_det⟩
